import Mathlib

/-!
Verification of the feed-import / asset-mirroring / session-cache core of the
circulation repository, as a shallow embedding in Lean 4.

Each definition in this file is translated from a named function of the
source tree (file and function are given in its doc comment).  Definitions
whose doc comment starts with "Modelled from the spec:" embed repository code
that is not part of the source snapshot (only its tests or callers are) and
follow the natural-language specification instead.
-/

namespace Circ

/-! ## Python dictionaries as association lists

Python dict assignment `d[k] = v` replaces the value in place when the key is
present and appends a new entry otherwise; `d.pop(k)` removes the entry or
raises `KeyError` (modelled as `none`); iteration order is insertion order. -/

namespace PyDict

variable {κ ν : Type} [DecidableEq κ]

def set (k : κ) (v : ν) : List (κ × ν) → List (κ × ν)
  | [] => [(k, v)]
  | (k0, v0) :: rest => if k0 = k then (k, v) :: rest else (k0, v0) :: set k v rest

def get? (k : κ) : List (κ × ν) → Option ν
  | [] => none
  | (k0, v0) :: rest => if k0 = k then some v0 else get? k rest

def pop (k : κ) : List (κ × ν) → Option (List (κ × ν))
  | [] => none
  | (k0, v0) :: rest => if k0 = k then some rest else (pop k rest).map ((k0, v0) :: ·)

def values (d : List (κ × ν)) : List ν := d.map Prod.snd

def keys (d : List (κ × ν)) : List κ := d.map Prod.fst

end PyDict

/-! ## Session identity cache (src/core/model/hassessioncache.py)

`HasSessionCache` keeps, per cached ORM class, a pair of dictionaries (one
keyed by integer database id, one by a domain cache key) plus hit/miss
counters. -/

/-- An ORM record as seen by `HasSessionCache`: an integer database id plus a
domain cache key.  `tag` distinguishes distinct Python objects that happen to
share an id or a key. -/
structure CacheObj where
  oid : Nat
  okey : String
  tag : Nat
deriving DecidableEq, Repr

/-- The `CacheTuple` namedtuple of hassessioncache.py: the id table, the key
table and the hit/miss statistics. -/
structure CacheTuple where
  idT : List (Nat × CacheObj)
  keyT : List (String × CacheObj)
  hits : Nat
  misses : Nat
deriving DecidableEq, Repr

def emptyCache : CacheTuple := ⟨[], [], 0, 0⟩

/-- `HasSessionCache._cache_insert` (hassessioncache.py lines 61-67): store the
object in both tables, keyed by its own id and its own cache key. -/
def cache_insert (obj : CacheObj) (cache : CacheTuple) : CacheTuple :=
  { cache with
    idT := PyDict.set obj.oid obj cache.idT
    keyT := PyDict.set obj.okey obj cache.keyT }

/-- `HasSessionCache._cache_remove` (hassessioncache.py lines 69-83): pop the
object from both tables; if either pop raises `KeyError` the whole cache is
cleared instead (the `except` branch). -/
def cache_remove (obj : CacheObj) (cache : CacheTuple) : CacheTuple :=
  match PyDict.pop obj.oid cache.idT with
  | none => { cache with idT := [], keyT := [] }
  | some idT1 =>
    match PyDict.pop obj.okey cache.keyT with
    | none => { cache with idT := [], keyT := [] }
    | some keyT1 => { cache with idT := idT1, keyT := keyT1 }

/-- `HasSessionCache.cache_warm` (hassessioncache.py lines 44-59): insert every
object produced by `get_objects`. -/
def cache_warm (objs : List CacheObj) (cache : CacheTuple) : CacheTuple :=
  objs.foldl (fun c o => cache_insert o c) cache

/-- The `cache_name` argument of `_cache_lookup`: which of the two tables is
consulted, together with the lookup key. -/
inductive CacheRef where
  | byId (i : Nat)
  | byKey (k : String)
deriving DecidableEq, Repr

/-- `getattr(cache, cache_name)` followed by the dictionary lookup inside
`_cache_lookup`. -/
def cacheGet : CacheRef → CacheTuple → Option CacheObj
  | .byId i, c => PyDict.get? i c.idT
  | .byKey k, c => PyDict.get? k c.keyT

/-- `HasSessionCache._cache_lookup` (hassessioncache.py lines 85-122) with an
explicitly stateful miss hook: the hook receives the current database contents
and may create a record.  The liveness test `obj not in db or obj in
db.deleted` is the condition of line 104.  The source recurses after evicting
a stale entry; since every entry is stored under the object's own id/key and
eviction removes it, the recursion depth is at most one, so a fuel parameter
bounds it faithfully. -/
def cache_lookup_st (deleted : List CacheObj)
    (hook : List CacheObj → List CacheObj × Option CacheObj × Bool) :
    Nat → List CacheObj → CacheTuple → CacheRef →
      List CacheObj × CacheTuple × Option CacheObj × Bool
  | 0, db, cache, _ => (db, cache, none, false)
  | fuel + 1, db, cache, ref =>
    match cacheGet ref cache with
    | some obj =>
      if obj ∈ db ∧ obj ∉ deleted then
        (db, { cache with hits := cache.hits + 1 }, some obj, false)
      else
        cache_lookup_st deleted hook fuel db (cache_remove obj cache) ref
    | none =>
      let cache1 := { cache with misses := cache.misses + 1 }
      match hook db with
      | (db1, some obj, n) => (db1, cache_insert obj cache1, some obj, n)
      | (db1, none, n) => (db1, cache1, none, n)

/-! ### Operation sequences over one cache (claim C9) -/

/-- One operation against a session cache.  A lookup carries the result of its
miss hook as data (the hook itself is caller code). -/
inductive CacheOp where
  | insert (o : CacheObj)
  | remove (o : CacheObj)
  | warm (objs : List CacheObj)
  | lookup (ref : CacheRef) (hook : Option CacheObj × Bool)
deriving Repr

/-- The database session a C9 operation sequence runs against: the set of live
objects and the set of objects marked deleted. -/
structure SessionDb where
  objs : List CacheObj
  deleted : List CacheObj
deriving Repr

def runCacheOp (db : SessionDb) (cache : CacheTuple) : CacheOp → CacheTuple
  | .insert o => cache_insert o cache
  | .remove o => cache_remove o cache
  | .warm objs => cache_warm objs cache
  | .lookup ref hook =>
      (cache_lookup_st db.deleted (fun d => (d, hook.1, hook.2)) 2 db.objs cache ref).2.1

def runCacheOps (db : SessionDb) (ops : List CacheOp) : CacheTuple :=
  ops.foldl (runCacheOp db) emptyCache

/-- The objects an operation mentions (inserted, removed, warmed or returned
by its miss hook). -/
def opObjs : CacheOp → List CacheObj
  | .insert o => [o]
  | .remove o => [o]
  | .warm objs => objs
  | .lookup _ hook => hook.1.toList

def opsObjs : List CacheOp → List CacheObj
  | [] => []
  | op :: rest => opObjs op ++ opsObjs rest

/-- A family of records is component-injective when no two distinct records
share a database id or a cache key (both are unique columns). -/
def KeyInjective (objs : List CacheObj) : Prop :=
  ∀ a ∈ objs, ∀ b ∈ objs, (a.oid = b.oid ∨ a.okey = b.okey) → a = b

/-! ### Cached versus cache-disabled runs (claim C8)

`by_id` (hassessioncache.py lines 138-147) uses `get_one` as its miss hook;
`by_cache_key` (lines 149-155) takes a caller-provided create-or-fetch hook. -/

/-- One operation of a C8 session: the two public lookups plus direct cache
insertion/removal. -/
inductive SessionOp where
  | byId (i : Nat)
  | byKey (k : String)
  | insert (o : CacheObj)
  | remove (o : CacheObj)
deriving Repr

/-- Modelled from the spec: `get_one` (catalog persistence, section 6
"lookup-by-identifier") returns the database record with the given unique id,
if any. -/
def get_one (db : List CacheObj) (i : Nat) : Option CacheObj :=
  db.find? (fun o => o.oid == i)

/-- Modelled from the spec: a fresh id for a created record (ids are unique,
so creation picks an id above every existing one). -/
def freshId (db : List CacheObj) : Nat := db.foldr (fun o m => max o.oid m) 0 + 1

/-- Modelled from the spec: the caller-provided miss hook of `by_cache_key`
"may create-or-fetch the record" (section 4.5): fetch the record with the
given cache key, or create (and persist) a fresh one under that key. -/
def get_or_create (db : List CacheObj) (k : String) : List CacheObj × CacheObj × Bool :=
  match db.find? (fun o => o.okey == k) with
  | some o => (db, o, false)
  | none =>
    let o : CacheObj := ⟨freshId db, k, 0⟩
    (db ++ [o], o, true)

/-- Run one session operation with the cache enabled (the code path of
`by_id` / `by_cache_key`). -/
def runCachedOp (db : List CacheObj) (cache : CacheTuple) :
    SessionOp → (List CacheObj × CacheTuple) × Option CacheObj × Bool
  | .byId i =>
    let r := cache_lookup_st [] (fun d => (d, get_one d i, false)) 2 db cache (.byId i)
    ((r.1, r.2.1), r.2.2)
  | .byKey k =>
    let r := cache_lookup_st []
      (fun d => let g := get_or_create d k; (g.1, some g.2.1, g.2.2)) 2 db cache (.byKey k)
    ((r.1, r.2.1), r.2.2)
  | .insert o => ((db, cache_insert o cache), none, false)
  | .remove o => ((db, cache_remove o cache), none, false)

/-- Run a session with the cache enabled, collecting each operation's returned
record and `new` flag. -/
def runCached : List SessionOp → List CacheObj → CacheTuple →
    List CacheObj × CacheTuple × List (Option CacheObj × Bool)
  | [], db, cache => (db, cache, [])
  | op :: ops, db, cache =>
    let r := runCachedOp db cache op
    let rest := runCached ops r.1.1 r.1.2
    (rest.1, rest.2.1, r.2 :: rest.2.2)

/-- Run one session operation with the cache disabled: every lookup takes the
miss path and invokes the hook directly; insert/remove are no-ops. -/
def runDisabledOp (db : List CacheObj) : SessionOp → List CacheObj × Option CacheObj × Bool
  | .byId i => (db, get_one db i, false)
  | .byKey k =>
    let g := get_or_create db k
    (g.1, some g.2.1, g.2.2)
  | .insert _ => (db, none, false)
  | .remove _ => (db, none, false)

/-- Run a session with the cache disabled. -/
def runDisabled : List SessionOp → List CacheObj → List CacheObj × List (Option CacheObj × Bool)
  | [], db => (db, [])
  | op :: ops, db =>
    let r := runDisabledOp db op
    let rest := runDisabled ops r.1
    (rest.1, r.2 :: rest.2)

/-! ## Asset mirror (src/s3.py) -/

/-- The result of Python `urlsplit`: scheme, network location and path (query
and fragment are unused by s3.py). -/
structure SplitUrl where
  scheme : String
  netloc : String
  path : String
deriving DecidableEq, Repr

/-- The external collaborators of `S3Uploader`: `urlsplit` comes from the
Python standard library and is kept abstract. -/
structure S3Env where
  urlsplit : String → SplitUrl

def s3_hostname : String := "s3.amazonaws.com"

def s3_base : String := "http://s3.amazonaws.com/"

/-- The truthiness of an optional Python string: `None` and the empty string
are falsy. -/
def truthyStr : Option String → Bool
  | none => false
  | some s => !(s == "")

/-- `S3Uploader.url` (s3.py lines 30-41). -/
def s3_url (bucket path : String) : String :=
  let path := if path.startsWith "/" then path.drop 1 else path
  let u := if bucket.startsWith "http://" || bucket.startsWith "https://" then bucket
           else s3_base ++ bucket
  let u := if u.endsWith "/" then u else u ++ "/"
  u ++ path

/-- `S3Uploader.bucket_and_filename` (s3.py lines 123-133).  The underscore
case models the `ValueError` Python would raise when the path holds no slash;
no theorem relies on it. -/
def bucket_and_filename (env : S3Env) (u : String) : String × String :=
  let s := env.urlsplit u
  if s.netloc = s3_hostname then
    let path := if s.path.startsWith "/" then s.path.drop 1 else s.path
    match path.splitOn "/" with
    | b :: f :: rest => (b, String.intercalate "/" (f :: rest))
    | _ => ("", "")
  else (s.netloc, s.path.drop 1)

/-- The `Representation` mirror unit.  `content` is what `external_content()`
yields; timestamps are abstract naturals. -/
structure Representation where
  url : String
  mirror_url : Option String
  external_media_type : Option String
  content : String
  local_content_path : Option String
  mirrored_at : Option Nat
  mirror_exception : Option String
deriving DecidableEq, Repr

/-- Modelled from the spec: `Representation.set_as_mirrored` (called at s3.py
line 177) marks the representation mirrored: set `mirrored_at`, clear any
prior exception (section 4.6, "On success"). -/
def set_as_mirrored (now : Nat) (r : Representation) : Representation :=
  { r with mirrored_at := some now, mirror_exception := none }

/-- One upload request issued by `pool.upload` inside `mirror_batch`, together
with the S3 response URL it was keyed under. -/
structure UploadReq where
  remote_filename : String
  bucket : String
  content : String
  content_type : Option String
  response_url : String
deriving DecidableEq, Repr

/-- The first loop of `S3Uploader.mirror_batch` (s3.py lines 144-163): default
`mirror_url` to `url` when falsy. -/
def prepRep (r : Representation) : Representation :=
  if truthyStr r.mirror_url then r else { r with mirror_url := some r.url }

/-- The request built for one (prepared) representation inside the first loop
of `mirror_batch`. -/
def buildRequest (env : S3Env) (r : Representation) : UploadReq :=
  let bf := bucket_and_filename env (r.mirror_url.getD "")
  { remote_filename := bf.2
    bucket := bf.1
    content := r.content
    content_type := r.external_media_type
    response_url := s3_url bf.1 bf.2 }

/-- `process_response` (s3.py lines 166-181): look the representation up by
the response URL; status 200 marks it mirrored, any other status records the
failure string and clears `mirrored_at`.  The `none` branches model the
unreachable `KeyError` (every processed response URL was inserted). -/
def process_response (now : Nat) (dict : List (String × Nat))
    (resp : String × Nat × String) (st : List Representation) : List Representation :=
  match PyDict.get? resp.1 dict with
  | none => st
  | some i =>
    match st[i]? with
    | none => st
    | some r =>
      let r1 :=
        if resp.2.1 = 200 then set_as_mirrored now r
        else { r with
               mirrored_at := none
               mirror_exception :=
                 some ("Status code " ++ toString resp.2.1 ++ ": " ++ resp.2.2) }
      st.set i r1

/-- `S3Uploader.mirror_batch` (s3.py lines 139-198).  `respond` maps a
response URL to the status code and body of the upload response.  Responses
are resolved in request order; since each response only touches the
representation its URL maps to, the completion order of `as_completed` does
not affect the final state.  Returns the updated representations and the
issued upload requests. -/
def mirror_batch (env : S3Env) (now : Nat) (respond : String → Nat × String)
    (reps : List Representation) : List Representation × List UploadReq :=
  let reps1 := reps.map prepRep
  let requests := reps1.map (buildRequest env)
  let dict := (requests.enum).foldl (fun d iq => PyDict.set iq.2.response_url iq.1 d) []
  let finalReps := requests.foldl
    (fun st rq => process_response now dict (rq.response_url, respond rq.response_url) st) reps1
  (finalReps, requests)

/-- The outcome of a conditional fetch of a representation's source. -/
inductive FetchResult where
  | notModified
  | newContent (content : String)
deriving DecidableEq, Repr

/-- Modelled from the spec: the change-detection driver (section 4.6): for a
representation already marked mirrored, a conditional fetch answering "not
modified" skips the upload entirely and leaves the representation untouched;
otherwise the (re)fetched content is uploaded through `mirror_batch`. -/
def mirror_with_change_detection (env : S3Env) (now : Nat)
    (fetch : Representation → FetchResult) (respond : String → Nat × String) :
    List Representation → List Representation × List UploadReq
  | [] => ([], [])
  | r :: rest =>
    let acc := mirror_with_change_detection env now fetch respond rest
    match fetch r, r.mirrored_at with
    | .notModified, some _ => (r :: acc.1, acc.2)
    | fr, _ =>
      let content := match fr with
        | .newContent c => c
        | .notModified => r.content
      let b := mirror_batch env now respond [{ r with content := content }]
      (b.1 ++ acc.1, b.2 ++ acc.2)

/-! ## OPDS 2.0 import (src/core/opds2_import.py)

The parser (webpub_manifest_parser) is an external collaborator: its result --
an abstract syntax tree plus a list of per-node errors -- is the input of the
functions embedded here.  Registry contents and external helpers are abstract
parameters collected in `OPDS2Env`. -/

/-- `first_or_default` of webpub_manifest_parser.utils with default `None`. -/
def first_or_default (l : List α) : Option α := l.head?

/-- An OPDS2 indirect-acquisition object: its `type` and its `child` list. -/
inductive Acq where
  | mk (typ : Option String) (child : List Acq)

def Acq.typ : Acq → Option String
  | .mk t _ => t

def Acq.child : Acq → List Acq
  | .mk _ c => c

/-- The `properties` object of a parsed link: the availability state (absent
availability is `none`) and the indirect-acquisition list. -/
structure LinkProperties where
  availability : Option String
  indirect_acquisition : List Acq

/-- A parsed (`ast_core.Link`) link. -/
structure ALink where
  rels : List String
  typ : Option String
  href : String
  properties : Option LinkProperties
  width : Option Nat
  height : Option Nat

/-- The `LinkData` record of the metadata layer; `thumbnail` is the
back-reference established by link consolidation. -/
inductive LinkData where
  | mk (rel : Option String) (href : Option String) (media_type : Option String)
       (rights_uri : Option String) (content : Option String) (thumbnail : Option LinkData)

mutual

def LinkData.decEq : (a b : LinkData) → Decidable (a = b)
  | .mk r1 h1 m1 ri1 c1 t1, .mk r2 h2 m2 ri2 c2 t2 =>
    haveI : Decidable (t1 = t2) := LinkData.decEqOpt t1 t2
    decidable_of_iff (r1 = r2 ∧ h1 = h2 ∧ m1 = m2 ∧ ri1 = ri2 ∧ c1 = c2 ∧ t1 = t2)
      (by simp [LinkData.mk.injEq])

def LinkData.decEqOpt : (a b : Option LinkData) → Decidable (a = b)
  | none, none => isTrue rfl
  | some a, some b =>
    match LinkData.decEq a b with
    | isTrue h => isTrue (by rw [h])
    | isFalse h => isFalse (fun hh => h (by injection hh))
  | none, some _ => isFalse (by simp)
  | some _, none => isFalse (by simp)

end

instance : DecidableEq LinkData := LinkData.decEq

def LinkData.rel : LinkData → Option String
  | .mk r _ _ _ _ _ => r

def LinkData.href : LinkData → Option String
  | .mk _ h _ _ _ _ => h

def LinkData.media_type : LinkData → Option String
  | .mk _ _ m _ _ _ => m

def LinkData.rights_uri : LinkData → Option String
  | .mk _ _ _ ri _ _ => ri

def LinkData.content : LinkData → Option String
  | .mk _ _ _ _ c _ => c

def LinkData.thumbnail : LinkData → Option LinkData
  | .mk _ _ _ _ _ t => t

/-- The metadata sub-object of a parsed publication (fields consumed by the
embedded functions). -/
structure PubMeta where
  identifier : Option String
  title : Option String
  subtitle : Option String
  typ : Option String
  description : Option String
  modified : Option Nat

/-- A parsed OPDS2 publication; `images` is `publication.images.links`. -/
structure Publication where
  metadata : PubMeta
  links : List ALink
  images : List ALink

structure OPDS2Group where
  publications : List Publication

structure OPDS2Feed where
  links : List ALink
  publications : List Publication
  groups : List OPDS2Group

/-- One parser error; `publication` is the result of
`NodeFinder.find_parent_or_self(root, error.node, OPDS2Publication)`. -/
structure ParseErr where
  message : String
  publication : Option Publication

/-- The parse result consumed by `extract_feed_data`. -/
structure ParserResult where
  root : OPDS2Feed
  errors : List ParseErr

/-- A parsed identifier (core model `Identifier`): its type and its value
string (the `identifier` column, nullable). -/
structure PIdentifier where
  typ : String
  identifier : Option String
deriving DecidableEq, Repr

/-- Registries, mappings and external helpers used by `OPDS2Importer`, kept
abstract: their concrete contents live outside the embedded functions. -/
structure OPDS2Env where
  circulation_allowed : List String
  known_drm_types : List String
  book_media_types : List String
  audiobook_media_types : List String
  additional_type_to_medium : String → Option String
  medium_from_media_type : Option String → Option String
  ignored_identifier_types : List String
  parse_identifier : Option String → Option PIdentifier
  has_netloc : String → Bool
  urljoin : String → String → String
  open_access_rights : List String
  rights_default : String

/-- `OPDS2AvailabilityType.AVAILABLE.value`. -/
def availableState : String := "available"

/-- `Hyperlink.IMAGE`. -/
def relImage : String := "http://opds-spec.org/image"

/-- `Hyperlink.THUMBNAIL_IMAGE`. -/
def relThumbnail : String := "http://opds-spec.org/image/thumbnail"

/-- `Hyperlink.DESCRIPTION`. -/
def relDescription : String := "http://librarysimplified.org/terms/rel/description"

/-- `Hyperlink.OPEN_ACCESS_DOWNLOAD`. -/
def relOpenAccess : String := "http://opds-spec.org/acquisition/open-access"

/-- `MediaTypes.TEXT_PLAIN`. -/
def textPlain : String := "text/plain"

/-- `OPDSFeed.NO_TITLE`. -/
def noTitle : String := "[Unknown Title]"

/-- `Edition.BOOK_MEDIUM`, the static default of `_extract_medium`. -/
def bookMedium : String := "Book"

/-- `OPDS2Importer._is_acquisition_link` (opds2_import.py lines 793-802). -/
def is_acquisition_link (env : OPDS2Env) (l : ALink) : Bool :=
  l.rels.any (fun r => decide (r ∈ env.circulation_allowed))

/-- The while loop of `_extract_media_types_and_drm_scheme_from_link`
(opds2_import.py lines 491-494): `nested` starts at the acquisition object and
is reassigned to `first_or_default(acquisition_object.child)` -- the first
child of the OUTER object -- while `nested.child` is non-empty.  `fuel` bounds
the iterations; `none` means the loop has not terminated within `fuel` steps
(for chains of depth three or more it never does). -/
def nested_follow (acq : Acq) : Nat → Acq → Option Acq
  | 0, _ => none
  | fuel + 1, nested =>
    if nested.child.isEmpty then some nested
    else
      match first_or_default acq.child with
      | some c => nested_follow acq fuel c
      | none => none

/-- `OPDS2Importer._extract_media_types_and_drm_scheme_from_link`
(opds2_import.py lines 466-518).  The result pairs are (content type, DRM
scheme); `DeliveryMechanism.NO_DRM` is Python `None`, modelled as `none`.
`none` overall means the embedded while loop failed to terminate. -/
def extract_media_types_and_drm_scheme_from_link (env : OPDS2Env) (fuel : Nat)
    (link : ALink) : Option (List (Option String × Option String)) :=
  match link.properties with
  | some props =>
    if props.availability = none ∨ props.availability = some availableState then
      props.indirect_acquisition.mapM (fun acq => do
        let nested ← nested_follow acq fuel acq
        let drm := match acq.typ with
          | some t => if t ∈ env.known_drm_types then some t else none
          | none => none
        pure (nested.typ, drm))
    else some []
  | none =>
    match link.typ with
    | some t =>
      if t ∈ env.book_media_types ∨ t ∈ env.audiobook_media_types then
        some [(some t, none)]
      else some []
    | none => some []

/-- `OPDS2Importer._extract_medium_from_links` (opds2_import.py lines
520-541). -/
def extract_medium_from_links (env : OPDS2Env) (fuel : Nat) :
    List ALink → Option (Option String)
  | [] => some none
  | l :: ls =>
    if l.rels.isEmpty || !truthyStr l.typ || !is_acquisition_link env l then
      extract_medium_from_links env fuel ls
    else do
      let pairs ← extract_media_types_and_drm_scheme_from_link env fuel l
      let mt := (first_or_default pairs).getD (none, none)
      match env.medium_from_media_type mt.1 with
      | some d => pure (some d)
      | none => extract_medium_from_links env fuel ls

/-- `OPDS2Importer._extract_medium` (opds2_import.py lines 543-560):
`default_medium` is the caller-supplied default (statically
`Edition.BOOK_MEDIUM`). -/
def extract_medium (env : OPDS2Env) (pub : Publication) (default_medium : Option String) :
    Option String :=
  match pub.metadata.typ with
  | some t =>
    if t = "" then default_medium
    else
      match env.additional_type_to_medium t with
      | some m => some m
      | none => default_medium
  | none => default_medium

/-- The medium computed by `_extract_publication_metadata` (opds2_import.py
lines 599-600): the medium derived from the links is passed to
`_extract_medium` as its default. -/
def publication_medium (env : OPDS2Env) (fuel : Nat) (pub : Publication) :
    Option (Option String) := do
  let derived ← extract_medium_from_links env fuel pub.links
  pure (extract_medium env pub derived)

/-- `OPDS2Importer._extract_link` (opds2_import.py lines 295-338). -/
def extract_link (env : OPDS2Env) (link : ALink) (feed_self_url : Option String)
    (default_link_rel : Option String) : LinkData :=
  let rel := match first_or_default link.rels with
    | some r => some r
    | none => default_link_rel
  let href := link.href
  let href := if truthyStr feed_self_url && !env.has_netloc href then
      env.urljoin (feed_self_url.getD "") href
    else href
  .mk rel (some href) link.typ (some env.rights_default) none none

/-- `OPDS2Importer._extract_description_link` (opds2_import.py lines
340-369). -/
def extract_description_link (pub : Publication) : Option LinkData :=
  if truthyStr pub.metadata.description then
    some (.mk (some relDescription) none (some textPlain) none pub.metadata.description none)
  else none

/-- The sort key of `_extract_image_links`: `(link.width or 0, link.height or
0)`, compared as Python compares tuples (lexicographically). -/
def sizeKey (l : ALink) : Nat × Nat := (l.width.getD 0, l.height.getD 0)

def sizeLe (a b : ALink) : Bool :=
  decide ((sizeKey a).1 < (sizeKey b).1) ||
    ((sizeKey a).1 == (sizeKey b).1 && decide ((sizeKey a).2 ≤ (sizeKey b).2))

/-- Python `sorted(links, key=...)` is THE stable ascending sort of its input,
and so is `List.mergeSort`: a stable sort under a total preorder is unique,
so `mergeSort` is a faithful model of `sorted`. -/
def python_sorted_by_size (links : List ALink) : List ALink := links.mergeSort sizeLe

/-- `OPDS2Importer._extract_image_links` (opds2_import.py lines 371-429):
`reversed(sorted(...))`, then the first element becomes the cover (default rel
`Hyperlink.IMAGE`) and the second, when present, the thumbnail (default rel
`Hyperlink.THUMBNAIL_IMAGE`). -/
def extract_image_links (env : OPDS2Env) (pub : Publication)
    (feed_self_url : Option String) : List LinkData :=
  if pub.images.isEmpty then []
  else
    let sorted_raw := (python_sorted_by_size pub.images).reverse
    let l1 := match sorted_raw.head? with
      | some L => [extract_link env L feed_self_url (some relImage)]
      | none => []
    let l2 := match sorted_raw[1]? with
      | some L => [extract_link env L feed_self_url (some relThumbnail)]
      | none => []
    l1 ++ l2

/-- `OPDS2Importer._extract_links` (opds2_import.py lines 431-464). -/
def extract_links (env : OPDS2Env) (pub : Publication) (feed_self_url : Option String) :
    List LinkData :=
  let links := pub.links.map (fun l => extract_link env l feed_self_url none)
  let links := match extract_description_link pub with
    | some d => links ++ [d]
    | none => links
  links ++ extract_image_links env pub feed_self_url

/-- `OPDS2Importer._is_open_access_link_` (opds2_import.py lines 804-828).
`default_rights` is `circulation_data.default_rights_uri`. -/
def is_open_access_link (env : OPDS2Env) (ld : LinkData) (default_rights : String) : Bool :=
  if ld.rel = some relOpenAccess && truthyStr ld.href then true
  else
    let rights := if truthyStr ld.rights_uri then ld.rights_uri.getD "" else default_rights
    (match ld.media_type with
     | some mt => decide (mt ∈ env.book_media_types)
     | none => false) &&
    truthyStr ld.href && decide (rights ∈ env.open_access_rights)

/-- The `FormatData` record of the metadata layer. -/
structure FormatData where
  content_type : Option String
  drm_scheme : Option String
  link : Option LinkData
  rights_uri : String
deriving DecidableEq

/-- `OPDS2Importer._find_formats_in_non_open_access_acquisition_links`
(opds2_import.py lines 715-751): zip the parsed links with the extracted
`LinkData` and collect one `FormatData` per (content type, DRM) pair of each
non-open-access acquisition link. -/
def find_formats_in_non_open_access_acquisition_links (env : OPDS2Env) (fuel : Nat)
    (rights_uri : String) (default_rights : String) :
    List (ALink × LinkData) → Option (List FormatData)
  | [] => some []
  | (al, ld) :: rest =>
    if !is_acquisition_link env al then
      find_formats_in_non_open_access_acquisition_links env fuel rights_uri default_rights rest
    else if is_open_access_link env ld default_rights then
      find_formats_in_non_open_access_acquisition_links env fuel rights_uri default_rights rest
    else do
      let pairs ← extract_media_types_and_drm_scheme_from_link env fuel al
      let fmts := pairs.map (fun p => FormatData.mk p.1 p.2 (some ld) rights_uri)
      let more ← find_formats_in_non_open_access_acquisition_links env fuel rights_uri
        default_rights rest
      pure (fmts ++ more)

/-- The `IdentifierData` record built at opds2_import.py lines 656-658. -/
structure IdentifierData where
  typ : String
  identifier : Option String
deriving DecidableEq

/-- The `CirculationData` fields consumed by the embedded functions. -/
structure CirculationData where
  default_rights_uri : String
  primary_identifier : IdentifierData
  links : List LinkData
  formats : List FormatData
deriving DecidableEq

/-- The `Metadata` record of `_extract_publication_metadata`, restricted to
the fields the verified claims mention (contributor, subject, publisher,
imprint and measurement extraction is omitted: no claim refers to them). -/
structure Metadata where
  title : Option String
  subtitle : Option String
  medium : Option String
  primary_identifier : IdentifierData
  links : List LinkData
  data_source_last_updated : Option Nat
  circulation : CirculationData
deriving DecidableEq

/-- `LinkList.get_by_rel` of the parser library. -/
def get_by_rel (rel : String) (links : List ALink) : List ALink :=
  links.filter (fun l => decide (rel ∈ l.rels))

/-- `OPDS2LinkRelationsRegistry.SELF.key`. -/
def relSelf : String := "self"

/-- `OPDS2Importer._extract_publication_metadata` (opds2_import.py lines
572-713), restricted to the modelled fields.  `none` models a Python
exception escaping the extraction: the while loop not terminating, a feed
without a self link (line 648: `first_or_default(...).href` on `None`), or an
unparsable identifier. -/
def extract_publication_metadata (env : OPDS2Env) (fuel : Nat) (feed : OPDS2Feed)
    (pub : Publication) : Option Metadata := do
  let title := if pub.metadata.title = some noTitle then none else pub.metadata.title
  let derived ← extract_medium_from_links env fuel pub.links
  let medium := extract_medium env pub derived
  let selfLink ← first_or_default (get_by_rel relSelf feed.links)
  let feed_self_url := some selfLink.href
  let links := extract_links env pub feed_self_url
  let identifier ← env.parse_identifier pub.metadata.identifier
  let identifier_data := IdentifierData.mk identifier.typ identifier.identifier
  let rights := env.rights_default
  let formats ← find_formats_in_non_open_access_acquisition_links env fuel rights rights
    (pub.links.zip links)
  let circ : CirculationData :=
    { default_rights_uri := rights
      primary_identifier := identifier_data
      links := links
      formats := formats }
  pure { title := title
         subtitle := pub.metadata.subtitle
         medium := medium
         primary_identifier := identifier_data
         links := links
         data_source_last_updated := pub.metadata.modified
         circulation := circ }

/-- `OPDS2Importer._get_publications` (opds2_import.py lines 775-791). -/
def get_publications (feed : OPDS2Feed) : List Publication :=
  feed.publications ++ feed.groups.foldr (fun g acc => g.publications ++ acc) []

/-- `OPDS2Importer._is_identifier_allowed` (opds2_import.py lines 188-202). -/
def is_identifier_allowed (env : OPDS2Env) (i : PIdentifier) : Bool :=
  decide (i.typ ∉ env.ignored_identifier_types)

/-- The `CoverageFailure` record. -/
structure CoverageFailure where
  identifier : PIdentifier
  message : String
  data_source : String
  transient : Bool
deriving DecidableEq, Repr

/-- The membership test `identifier not in failures` at opds2_import.py line
848 compares the `Identifier` OBJECT against the dictionary's STRING keys; in
Python no string equals an `Identifier`, so the test never finds a match. -/
def pythonEqIdentifierStr (_ : PIdentifier) (_ : Option String) : Bool := false

/-- `OPDS2Importer._record_coverage_failure` (opds2_import.py lines 830-859).
`none` models the `ValueError` raised when the identifier value is `None`;
otherwise returns the updated failures dictionary and the new failure. -/
def record_coverage_failure (data_source : String)
    (failures : List (Option String × List CoverageFailure)) (identifier : PIdentifier)
    (error_message : String) (transient : Bool) :
    Option (List (Option String × List CoverageFailure) × CoverageFailure) :=
  if identifier.identifier = none then none
  else
    let failures :=
      if failures.any (fun kv => pythonEqIdentifierStr identifier kv.1) then failures
      else PyDict.set identifier.identifier ([] : List CoverageFailure) failures
    let failure : CoverageFailure :=
      { identifier := identifier
        message := error_message
        data_source := data_source
        transient := transient }
    let cur := (PyDict.get? identifier.identifier failures).getD []
    some (PyDict.set identifier.identifier (cur ++ [failure]) failures, failure)

/-- A Python exception escaping `extract_feed_data`: either an exception
raised inside per-publication extraction (which the source does NOT catch) or
the `ValueError` of `_record_coverage_failure`. -/
inductive FeedErr where
  | extractionFailed
  | valueError
deriving DecidableEq, Repr

/-- `OPDS2Importer.extract_feed_data` (opds2_import.py lines 918-968): first
loop over the publications of the parsed feed building the metadata
dictionary (keyed by identifier value, skipping unrecognized or ignored
identifiers), second loop over the parser errors recording a
`CoverageFailure` for each error attached to a publication with a recognized,
allowed identifier. -/
def extract_feed_data (env : OPDS2Env) (fuel : Nat) (data_source : String)
    (pr : ParserResult) :
    Except FeedErr (List (Option String × Metadata) × List (Option String × List CoverageFailure)) := do
  let md ← (get_publications pr.root).foldlM
    (fun (acc : List (Option String × Metadata)) pub => do
      match env.parse_identifier pub.metadata.identifier with
      | none => pure acc
      | some ident =>
        if is_identifier_allowed env ident then
          match extract_publication_metadata env fuel pr.root pub with
          | some m => pure (PyDict.set m.primary_identifier.identifier m acc)
          | none => throw FeedErr.extractionFailed
        else pure acc) []
  let fl ← pr.errors.foldlM
    (fun (acc : List (Option String × List CoverageFailure)) err => do
      match err.publication with
      | some pub =>
        match env.parse_identifier pub.metadata.identifier with
        | none => pure acc
        | some ident =>
          if is_identifier_allowed env ident then
            match record_coverage_failure data_source acc ident err.message true with
            | some r => pure r.1
            | none => throw FeedErr.valueError
          else pure acc
      | none => pure acc) []
  pure (md, fl)

/-! ## Link consolidation (claim C7) -/

/-- Attach a thumbnail to the first not-yet-paired image link of the list (an
image is unpaired while its `thumbnail` field is empty); `none` when the list
holds no such image. -/
def attach_thumbnail (t : LinkData) : List LinkData → Option (List LinkData)
  | [] => none
  | x :: xs =>
    if x.rel = some relImage ∧ x.thumbnail = none then
      some (.mk x.rel x.href x.media_type x.rights_uri x.content (some t) :: xs)
    else (attach_thumbnail t xs).map (x :: ·)

/-- Modelled from the spec: `OPDSImporter.consolidate_links` is not part of
the source snapshot (only its test is).  Per spec section 4.2 the input is
scanned once; each link tagged thumbnail is paired with the next image-tagged
link that has not already been paired, thumbnail entries are removed from the
output, a thumbnail with no image to pair with is dropped silently, and all
non-thumbnail links keep their input order. -/
def consolidate_links : List LinkData → List LinkData
  | [] => []
  | l :: rest =>
    if l.rel = some relThumbnail then
      match h : attach_thumbnail l rest with
      | some rest1 => consolidate_links rest1
      | none => consolidate_links rest
    else l :: consolidate_links rest
termination_by l => l.length
decreasing_by
  · have hlen : ∀ (t : LinkData) (a b : List LinkData),
        attach_thumbnail t a = some b → b.length = a.length := by
      intro t a
      induction a with
      | nil => intro b hb; simp [attach_thumbnail] at hb
      | cons y ys ih =>
        intro b hb
        simp only [attach_thumbnail] at hb
        split at hb
        · cases hb; simp
        · cases hx : attach_thumbnail t ys with
          | none => rw [hx] at hb; simp at hb
          | some zs =>
            rw [hx] at hb
            simp only [Option.map] at hb
            cases hb
            simp [ih zs hx]
    simp [hlen _ _ _ h]
  · simp
  · simp

/-! ## Predicates used by the theorem statements -/

/-- The two tables of a session cache are aligned when they are the self-keyed
images of one duplicate-free set `S` of records drawn from the family `U`. -/
def Aligned (U : List CacheObj) (c : CacheTuple) : Prop :=
  ∃ S : List CacheObj, S.Nodup ∧ (∀ o ∈ S, o ∈ U) ∧
    c.idT = S.map (fun o => (o.oid, o)) ∧ c.keyT = S.map (fun o => (o.okey, o))

/-- Every table entry of a session cache is stored under the object's own
id/key, and neither table repeats a key. -/
def SelfKeyed (c : CacheTuple) : Prop :=
  (∀ p ∈ c.idT, (p.2).oid = p.1) ∧ (∀ p ∈ c.keyT, (p.2).okey = p.1) ∧
    (PyDict.keys c.idT).Nodup ∧ (PyDict.keys c.keyT).Nodup

/-- The medium named by the publication's explicitly declared type, when that
type is present (truthy) and the `additional_type_to_medium` mapping knows it
(spec section 4.3, first alternative of "Medium derivation"). -/
def declared_medium (env : OPDS2Env) (pub : Publication) : Option String :=
  match pub.metadata.typ with
  | some t => if t = "" then none else env.additional_type_to_medium t
  | none => none

/-- A link with its thumbnail back-reference cleared (the part of a `LinkData`
that consolidation never alters). -/
def stripThumb (l : LinkData) : LinkData :=
  .mk l.rel l.href l.media_type l.rights_uri l.content none

/-! ## Concrete fixtures for the feed-extraction witness -/

/-- A concrete environment: every identifier string parses to an ISBN
`Identifier` carrying that string, no identifier type is ignored, and the
media-type registries are empty. -/
def envC1 : OPDS2Env :=
  { circulation_allowed := []
    known_drm_types := []
    book_media_types := []
    audiobook_media_types := []
    additional_type_to_medium := fun _ => none
    medium_from_media_type := fun _ => none
    ignored_identifier_types := []
    parse_identifier := fun s => match s with
      | some v => some ⟨"ISBN", some v⟩
      | none => none
    has_netloc := fun _ => true
    urljoin := fun _ b => b
    open_access_rights := []
    rights_default := "in-copyright" }

/-- First publication of the witness feed; extracts successfully. -/
def pubC1 : Publication :=
  ⟨⟨some "urn:isbn:1", some "Book One", none, none, none, some 5⟩, [], []⟩

/-- Third publication of the witness feed; extracts successfully. -/
def pubC3 : Publication :=
  ⟨⟨some "urn:isbn:3", some "Book Three", none, none, none, some 7⟩, [], []⟩

/-- The publication of the witness feed whose extraction the parser reported
an error for. -/
def pubC2 : Publication :=
  ⟨⟨some "urn:isbn:2", some "Book Two", none, none, none, none⟩, [], []⟩

/-- The witness feed: a self link and the two well-formed publications. -/
def rootC1 : OPDS2Feed :=
  ⟨[⟨[relSelf], none, "https://feed/self", none, none, none⟩], [pubC1, pubC3], []⟩

/-- The parser errors of the witness feed: one error attached to `pubC2`. -/
def errsC1 : List ParseErr := [⟨"extraction threw", some pubC2⟩]

/-! # Theorems -/

/-! ## Dictionary lemmas -/

namespace PyDict

variable {κ ν β : Type} [DecidableEq κ]

theorem get?_map_eq_none (f : β → κ) (k : κ) (S : List β) (h : ∀ x ∈ S, f x ≠ k) :
    get? k (S.map (fun x => (f x, x))) = none := by
  induction S with
  | nil => rfl
  | cons x xs ih =>
    simp only [List.map_cons, get?]
    rw [if_neg (h x (by simp))]
    exact ih (fun y hy => h y (by simp [hy]))

theorem get?_map_eq_some (f : β → κ) (k : κ) (S : List β) (o : β)
    (h : get? k (S.map (fun x => (f x, x))) = some o) : o ∈ S ∧ f o = k := by
  induction S with
  | nil => simp [get?] at h
  | cons x xs ih =>
    simp only [List.map_cons, get?] at h
    by_cases hk : f x = k
    · rw [if_pos hk] at h
      cases h
      exact ⟨by simp, hk⟩
    · rw [if_neg hk] at h
      obtain ⟨hm, hf⟩ := ih h
      exact ⟨by simp [hm], hf⟩

theorem set_map_of_mem (f : β → κ) (o : β) (S : List β) (ho : o ∈ S)
    (huniq : ∀ x ∈ S, f x = f o → x = o) :
    set (f o) o (S.map (fun x => (f x, x))) = S.map (fun x => (f x, x)) := by
  induction S with
  | nil => cases ho
  | cons x xs ih =>
    simp only [List.map_cons, set]
    by_cases hk : f x = f o
    · rw [if_pos hk]
      have hx : x = o := huniq x (by simp) hk
      subst hx
      simp
    · rw [if_neg hk]
      have ho2 : o ∈ xs := by
        rcases List.mem_cons.mp ho with h1 | h1
        · exact absurd (h1 ▸ rfl) hk
        · exact h1
      rw [ih ho2 (fun y hy => huniq y (by simp [hy]))]

theorem set_map_of_not_mem (f : β → κ) (o : β) (S : List β)
    (h : ∀ x ∈ S, f x ≠ f o) :
    set (f o) o (S.map (fun x => (f x, x))) = (S ++ [o]).map (fun x => (f x, x)) := by
  induction S with
  | nil => rfl
  | cons x xs ih =>
    simp only [List.map_cons, set, List.cons_append]
    rw [if_neg (h x (by simp))]
    rw [ih (fun y hy => h y (by simp [hy]))]

theorem pop_map_of_mem (f : β → κ) (o : β) (S : List β) [DecidableEq β]
    (ho : o ∈ S) (huniq : ∀ x ∈ S, f x = f o → x = o) :
    pop (f o) (S.map (fun x => (f x, x))) = some ((S.erase o).map (fun x => (f x, x))) := by
  induction S with
  | nil => cases ho
  | cons x xs ih =>
    simp only [List.map_cons, pop]
    by_cases hk : f x = f o
    · rw [if_pos hk]
      have hx : x = o := huniq x (by simp) hk
      subst hx
      simp
    · rw [if_neg hk]
      have ho2 : o ∈ xs := by
        rcases List.mem_cons.mp ho with h1 | h1
        · exact absurd (h1 ▸ rfl) hk
        · exact h1
      rw [ih ho2 (fun y hy => huniq y (by simp [hy]))]
      have hxo : x ≠ o := fun he => hk (he ▸ rfl)
      simp [List.erase_cons_tail, hxo]

theorem pop_map_of_not_mem (f : β → κ) (k : κ) (S : List β)
    (h : ∀ x ∈ S, f x ≠ k) : pop k (S.map (fun x => (f x, x))) = none := by
  induction S with
  | nil => rfl
  | cons x xs ih =>
    simp only [List.map_cons, pop]
    rw [if_neg (h x (by simp))]
    rw [ih (fun y hy => h y (by simp [hy]))]
    rfl

theorem pop_eq_none_iff (k : κ) (d : List (κ × ν)) :
    pop k d = none ↔ get? k d = none := by
  induction d with
  | nil => simp [pop, get?]
  | cons p rest ih =>
    simp only [pop, get?]
    by_cases hk : p.1 = k
    · cases p
      simp_all [pop, get?]
    · cases p
      simp_all [pop, get?, Option.map_eq_none']

theorem values_map_self (f : β → κ) (S : List β) :
    values (S.map (fun x => (f x, x))) = S := by
  simp [values, List.map_map, Function.comp_def]

end PyDict

/-! ## Claim C9: the two cache tables stay in lock-step -/

theorem aligned_empty (U : List CacheObj) : Aligned U emptyCache :=
  ⟨[], List.nodup_nil, by simp, rfl, rfl⟩

theorem aligned_insert {U : List CacheObj} {o : CacheObj} {c : CacheTuple}
    (hU : KeyInjective U) (ho : o ∈ U) (h : Aligned U c) :
    Aligned U (cache_insert o c) := by
  obtain ⟨S, hnd, hSU, hid, hkey⟩ := h
  by_cases hmem : o ∈ S
  · refine ⟨S, hnd, hSU, ?_, ?_⟩
    · simp only [cache_insert, hid]
      exact PyDict.set_map_of_mem _ o S hmem
        (fun x hx hfx => hU x (hSU x hx) o ho (Or.inl hfx))
    · simp only [cache_insert, hkey]
      exact PyDict.set_map_of_mem _ o S hmem
        (fun x hx hfx => hU x (hSU x hx) o ho (Or.inr hfx))
  · refine ⟨S ++ [o], ?_, ?_, ?_, ?_⟩
    · simp [List.nodup_append, hnd, hmem]
    · intro x hx
      rcases List.mem_append.mp hx with h1 | h1
      · exact hSU x h1
      · simp at h1
        exact h1 ▸ ho
    · simp only [cache_insert, hid]
      exact PyDict.set_map_of_not_mem _ o S
        (fun x hx hfx => hmem ((hU x (hSU x hx) o ho (Or.inl hfx)) ▸ hx))
    · simp only [cache_insert, hkey]
      exact PyDict.set_map_of_not_mem _ o S
        (fun x hx hfx => hmem ((hU x (hSU x hx) o ho (Or.inr hfx)) ▸ hx))

theorem aligned_remove_mem {U S : List CacheObj} {o : CacheObj} {c : CacheTuple}
    (hU : KeyInjective U) (ho : o ∈ U) (hnd : S.Nodup) (hSU : ∀ x ∈ S, x ∈ U)
    (hid : c.idT = S.map (fun x => (x.oid, x)))
    (hkey : c.keyT = S.map (fun x => (x.okey, x))) (hmem : o ∈ S) :
    cache_remove o c =
      { c with
        idT := (S.erase o).map (fun x => (x.oid, x))
        keyT := (S.erase o).map (fun x => (x.okey, x)) } := by
  have h1 : PyDict.pop o.oid c.idT = some ((S.erase o).map (fun x => (x.oid, x))) := by
    rw [hid]
    exact PyDict.pop_map_of_mem _ o S hmem
      (fun x hx hfx => hU x (hSU x hx) o ho (Or.inl hfx))
  have h2 : PyDict.pop o.okey c.keyT = some ((S.erase o).map (fun x => (x.okey, x))) := by
    rw [hkey]
    exact PyDict.pop_map_of_mem _ o S hmem
      (fun x hx hfx => hU x (hSU x hx) o ho (Or.inr hfx))
  simp [cache_remove, h1, h2]

theorem aligned_remove_not_mem {U S : List CacheObj} {o : CacheObj} {c : CacheTuple}
    (hU : KeyInjective U) (ho : o ∈ U) (hSU : ∀ x ∈ S, x ∈ U)
    (hid : c.idT = S.map (fun x => (x.oid, x))) (hmem : o ∉ S) :
    cache_remove o c = { c with idT := [], keyT := [] } := by
  have h1 : PyDict.pop o.oid c.idT = none := by
    rw [hid]
    exact PyDict.pop_map_of_not_mem _ _ S
      (fun x hx hfx => hmem ((hU x (hSU x hx) o ho (Or.inl hfx)) ▸ hx))
  simp [cache_remove, h1]

theorem aligned_remove {U : List CacheObj} {o : CacheObj} {c : CacheTuple}
    (hU : KeyInjective U) (ho : o ∈ U) (h : Aligned U c) :
    Aligned U (cache_remove o c) := by
  obtain ⟨S, hnd, hSU, hid, hkey⟩ := h
  by_cases hmem : o ∈ S
  · rw [aligned_remove_mem hU ho hnd hSU hid hkey hmem]
    exact ⟨S.erase o, hnd.erase o, fun x hx => hSU x (List.mem_of_mem_erase hx), rfl, rfl⟩
  · rw [aligned_remove_not_mem hU ho hSU hid hmem]
    exact ⟨[], List.nodup_nil, by simp, rfl, rfl⟩

theorem aligned_warm {U : List CacheObj} (objs : List CacheObj) (c : CacheTuple)
    (hU : KeyInjective U) (hobjs : ∀ o ∈ objs, o ∈ U) (h : Aligned U c) :
    Aligned U (cache_warm objs c) := by
  induction objs generalizing c with
  | nil => exact h
  | cons o rest ih =>
    exact ih (cache_insert o c) (fun x hx => hobjs x (by simp [hx]))
      (aligned_insert hU (hobjs o (by simp)) h)

theorem aligned_stats {U : List CacheObj} {c : CacheTuple} (h : Aligned U c)
    (hs ms : Nat) : Aligned U { c with hits := hs, misses := ms } := by
  obtain ⟨S, hnd, hSU, hid, hkey⟩ := h
  exact ⟨S, hnd, hSU, hid, hkey⟩

theorem aligned_lookup {U : List CacheObj} {c : CacheTuple} {db deleted : List CacheObj}
    {ref : CacheRef} (hU : KeyInjective U) (hk : Option CacheObj × Bool)
    (hhook : ∀ o, hk.1 = some o → o ∈ U) (h : Aligned U c) :
    Aligned U (cache_lookup_st deleted (fun d => (d, hk.1, hk.2)) 2 db c ref).2.1 := by
  obtain ⟨S, hnd, hSU, hid, hkey⟩ := h
  have hA : Aligned U c := ⟨S, hnd, hSU, hid, hkey⟩
  rcases hk with ⟨ho, n⟩
  cases hg : cacheGet ref c with
  | none =>
    rw [cache_lookup_st]
    simp only [hg]
    cases ho with
    | none => exact aligned_stats hA _ _
    | some o => exact aligned_insert hU (hhook o rfl) (aligned_stats hA _ _)
  | some obj =>
    have hobj : obj ∈ S ∧ (match ref with
        | .byId i => obj.oid = i
        | .byKey k => obj.okey = k) := by
      cases ref with
      | byId i =>
        simp only [cacheGet, hid] at hg
        exact PyDict.get?_map_eq_some _ _ _ _ hg
      | byKey k =>
        simp only [cacheGet, hkey] at hg
        exact PyDict.get?_map_eq_some _ _ _ _ hg
    by_cases hlive : obj ∈ db ∧ obj ∉ deleted
    · rw [cache_lookup_st]
      simp only [hg]
      rw [if_pos hlive]
      exact aligned_stats hA _ _
    · have hoU : obj ∈ U := hSU obj hobj.1
      have hrem := aligned_remove_mem hU hoU hnd hSU hid hkey hobj.1
      have hgone : cacheGet ref
          { c with
            idT := (S.erase obj).map (fun x => (x.oid, x))
            keyT := (S.erase obj).map (fun x => (x.okey, x)) } = none := by
        have hnotin : obj ∉ S.erase obj := hnd.not_mem_erase
        cases ref with
        | byId i =>
          simp only [cacheGet]
          have hne : ∀ x ∈ S.erase obj, x.oid ≠ i := by
            intro x hx he
            have hxU : x ∈ U := hSU x (List.mem_of_mem_erase hx)
            have hxe : x = obj := hU x hxU obj hoU (Or.inl (he.trans hobj.2.symm))
            exact hnotin (hxe ▸ hx)
          exact PyDict.get?_map_eq_none _ _ _ hne
        | byKey k =>
          simp only [cacheGet]
          have hne : ∀ x ∈ S.erase obj, x.okey ≠ k := by
            intro x hx he
            have hxU : x ∈ U := hSU x (List.mem_of_mem_erase hx)
            have hxe : x = obj := hU x hxU obj hoU (Or.inr (he.trans hobj.2.symm))
            exact hnotin (hxe ▸ hx)
          exact PyDict.get?_map_eq_none _ _ _ hne
      have hAe : Aligned U
          { c with
            idT := (S.erase obj).map (fun x => (x.oid, x))
            keyT := (S.erase obj).map (fun x => (x.okey, x)) } :=
        ⟨S.erase obj, hnd.erase obj, fun x hx => hSU x (List.mem_of_mem_erase hx), rfl, rfl⟩
      rw [cache_lookup_st]
      simp only [hg]
      rw [if_neg hlive, hrem, cache_lookup_st]
      simp only [hgone]
      cases ho with
      | none => exact aligned_stats hAe _ _
      | some o => exact aligned_insert hU (hhook o rfl) (aligned_stats hAe _ _)

theorem aligned_runCacheOp {U : List CacheObj} {c : CacheTuple} (db : SessionDb)
    (op : CacheOp) (hU : KeyInjective U) (hop : ∀ o ∈ opObjs op, o ∈ U)
    (h : Aligned U c) : Aligned U (runCacheOp db c op) := by
  cases op with
  | insert o => exact aligned_insert hU (hop o (by simp [opObjs])) h
  | remove o => exact aligned_remove hU (hop o (by simp [opObjs])) h
  | warm objs => exact aligned_warm objs c hU hop h
  | lookup ref hk =>
    refine aligned_lookup hU hk ?_ h
    intro o ho
    apply hop
    simp [opObjs, ho]

theorem aligned_runCacheOps {U : List CacheObj} (db : SessionDb) (ops : List CacheOp)
    (c : CacheTuple) (hU : KeyInjective U)
    (hops : ∀ op ∈ ops, ∀ o ∈ opObjs op, o ∈ U) (h : Aligned U c) :
    Aligned U (ops.foldl (runCacheOp db) c) := by
  induction ops generalizing c with
  | nil => exact h
  | cons op rest ih =>
    exact ih _ (fun p hp => hops p (by simp [hp]))
      (aligned_runCacheOp db op hU (hops op (by simp)) h)

theorem opsObjs_mem {ops : List CacheOp} {op : CacheOp} {o : CacheObj}
    (hop : op ∈ ops) (ho : o ∈ opObjs op) : o ∈ opsObjs ops := by
  induction ops with
  | nil => cases hop
  | cons p rest ih =>
    rcases List.mem_cons.mp hop with h1 | h1
    · subst h1
      simp [opsObjs, List.mem_append, ho]
    · simp [opsObjs, List.mem_append, ih h1]

/-- C9, counterexample: the claim asserts the two tables hold the same set of
records after EVERY operation sequence, but inserting two distinct records
that share a database id (here id 1 with keys "a" and "b") leaves record
(1, "a") in the key table while the id table no longer holds it. -/
theorem c9_counterexample :
    (⟨1, "a", 0⟩ : CacheObj) ∈
      PyDict.values (runCacheOps ⟨[], []⟩
        [CacheOp.insert ⟨1, "a", 0⟩, CacheOp.insert ⟨1, "b", 1⟩]).keyT ∧
    (⟨1, "a", 0⟩ : CacheObj) ∉
      PyDict.values (runCacheOps ⟨[], []⟩
        [CacheOp.insert ⟨1, "a", 0⟩, CacheOp.insert ⟨1, "b", 1⟩]).idT := by
  decide

/-- C9 (amended): provided the records appearing in the operation sequence are
component-injective (no two distinct records share a database id or a cache
key, both being unique columns), after any sequence of cache_warm,
_cache_insert, _cache_remove and _cache_lookup calls the records held by the
id table are exactly the records held by the key table; and _cache_remove
never raises on an inconsistent or already-missing entry (one whose id or key
is absent from its table): it clears both tables entirely instead. -/
theorem c9_cache_tables_lockstep (ops : List CacheOp) (db : SessionDb)
    (hinj : KeyInjective (opsObjs ops)) :
    PyDict.values (runCacheOps db ops).idT = PyDict.values (runCacheOps db ops).keyT ∧
    ∀ (c : CacheTuple) (o : CacheObj),
      (PyDict.get? o.oid c.idT = none ∨ PyDict.get? o.okey c.keyT = none) →
      cache_remove o c = { c with idT := [], keyT := [] } := by
  constructor
  · have h := aligned_runCacheOps db ops emptyCache hinj
      (fun op hop o ho => opsObjs_mem hop ho) (aligned_empty _)
    obtain ⟨S, hnd, hSU, hid, hkey⟩ := h
    show PyDict.values (ops.foldl (runCacheOp db) emptyCache).idT =
      PyDict.values (ops.foldl (runCacheOp db) emptyCache).keyT
    rw [hid, hkey, PyDict.values_map_self, PyDict.values_map_self]
  · intro c o hco
    rcases hco with h1 | h1
    · have hp : PyDict.pop o.oid c.idT = none := (PyDict.pop_eq_none_iff _ _).mpr h1
      simp [cache_remove, hp]
    · have h2 : PyDict.pop o.okey c.keyT = none := (PyDict.pop_eq_none_iff _ _).mpr h1
      cases hp : PyDict.pop o.oid c.idT with
      | none => simp [cache_remove, hp]
      | some idT1 => simp [cache_remove, hp, h2]

/-- C9, witness: the amended theorem applied to a concrete one-insert
sequence. -/
theorem c9_witness :
    KeyInjective (opsObjs [CacheOp.insert ⟨2, "a", 0⟩]) ∧
    PyDict.values (runCacheOps ⟨[], []⟩ [CacheOp.insert ⟨2, "a", 0⟩]).idT =
      PyDict.values (runCacheOps ⟨[], []⟩ [CacheOp.insert ⟨2, "a", 0⟩]).keyT :=
  ⟨by unfold KeyInjective; decide,
   (c9_cache_tables_lockstep [CacheOp.insert ⟨2, "a", 0⟩] ⟨[], []⟩
     (by unfold KeyInjective; decide)).1⟩

/-! ## Claim C8: the cache is a transparent optimization -/

namespace PyDict

variable {κ ν : Type} [DecidableEq κ]

theorem get?_mem {k : κ} {d : List (κ × ν)} {v : ν} (h : get? k d = some v) :
    (k, v) ∈ d := by
  induction d with
  | nil => simp [get?] at h
  | cons p rest ih =>
    simp only [get?] at h
    by_cases hk : p.1 = k
    · rw [if_pos hk] at h
      cases h
      cases p
      simp_all
    · rw [if_neg hk] at h
      simp [ih h]

theorem mem_set {k : κ} {v : ν} {d : List (κ × ν)} {p : κ × ν} (h : p ∈ set k v d) :
    p = (k, v) ∨ p ∈ d := by
  induction d with
  | nil => simpa [set] using h
  | cons q rest ih =>
    simp only [set] at h
    by_cases hk : q.1 = k
    · rw [if_pos hk] at h
      rcases List.mem_cons.mp h with h1 | h1
      · exact Or.inl h1
      · exact Or.inr (by simp [h1])
    · rw [if_neg hk] at h
      rcases List.mem_cons.mp h with h1 | h1
      · exact Or.inr (by simp [h1])
      · rcases ih h1 with h2 | h2
        · exact Or.inl h2
        · exact Or.inr (by simp [h2])

theorem keys_set_found {k : κ} {v : ν} {d : List (κ × ν)}
    (h : get? k d ≠ none) : keys (set k v d) = keys d := by
  induction d with
  | nil => simp [get?] at h
  | cons q rest ih =>
    simp only [get?] at h
    by_cases hk : q.1 = k
    · simp only [set]
      rw [if_pos hk]
      simp [keys, hk]
    · rw [if_neg hk] at h
      simp only [set, if_neg hk, keys, List.map_cons]
      have hr := ih h
      simp only [keys] at hr
      rw [hr]

theorem keys_set_not_found {k : κ} {v : ν} {d : List (κ × ν)}
    (h : get? k d = none) : keys (set k v d) = keys d ++ [k] := by
  induction d with
  | nil => simp [set, keys]
  | cons q rest ih =>
    simp only [get?] at h
    by_cases hk : q.1 = k
    · rw [if_pos hk] at h
      cases h
    · rw [if_neg hk] at h
      simp only [set, if_neg hk, keys, List.map_cons, List.cons_append]
      have hr := ih h
      simp only [keys] at hr
      rw [hr]

theorem get?_eq_none_iff {k : κ} {d : List (κ × ν)} :
    get? k d = none ↔ k ∉ keys d := by
  induction d with
  | nil => simp [get?, keys]
  | cons q rest ih =>
    simp only [keys] at ih
    simp only [get?, keys, List.map_cons, List.mem_cons]
    by_cases hk : q.1 = k
    · simp [hk]
    · rw [if_neg hk]
      constructor
      · intro hn
        rintro (he | hm)
        · exact hk he.symm
        · exact (ih.mp hn) hm
      · intro hn
        exact ih.mpr (fun hm => hn (Or.inr hm))

theorem keys_nodup_set {k : κ} {v : ν} {d : List (κ × ν)}
    (h : (keys d).Nodup) : (keys (set k v d)).Nodup := by
  cases hg : get? k d with
  | none =>
    rw [keys_set_not_found hg]
    simp [List.nodup_append, h, get?_eq_none_iff.mp hg]
  | some w =>
    rw [keys_set_found (by simp [hg])]
    exact h

theorem pop_sublist {k : κ} {d d1 : List (κ × ν)} (h : pop k d = some d1) :
    d1.Sublist d := by
  induction d generalizing d1 with
  | nil => simp [pop] at h
  | cons q rest ih =>
    simp only [pop] at h
    by_cases hk : q.1 = k
    · rw [if_pos hk] at h
      cases h
      exact List.sublist_cons_self q rest
    · rw [if_neg hk] at h
      cases hp : pop k rest with
      | none => rw [hp] at h; simp at h
      | some r1 =>
        rw [hp] at h
        simp only [Option.map] at h
        cases h
        exact (ih hp).cons₂ q

theorem get?_pop_nodup {k : κ} {d d1 : List (κ × ν)} (hnd : (keys d).Nodup)
    (h : pop k d = some d1) : get? k d1 = none := by
  induction d generalizing d1 with
  | nil => simp [pop] at h
  | cons q rest ih =>
    simp only [pop] at h
    simp only [keys, List.map_cons, List.nodup_cons] at hnd
    by_cases hk : q.1 = k
    · rw [if_pos hk] at h
      cases h
      rw [get?_eq_none_iff]
      exact fun hm => hnd.1 (hk ▸ hm)
    · rw [if_neg hk] at h
      cases hp : pop k rest with
      | none => rw [hp] at h; simp at h
      | some r1 =>
        rw [hp] at h
        simp only [Option.map] at h
        cases h
        simp only [get?]
        rw [if_neg hk]
        exact ih hnd.2 hp

end PyDict

theorem selfKeyed_empty : SelfKeyed emptyCache := by
  refine ⟨?_, ?_, ?_, ?_⟩ <;> simp [emptyCache, PyDict.keys]

theorem selfKeyed_insert {c : CacheTuple} (o : CacheObj) (h : SelfKeyed c) :
    SelfKeyed (cache_insert o c) := by
  obtain ⟨h1, h2, h3, h4⟩ := h
  refine ⟨?_, ?_, ?_, ?_⟩
  · intro p hp
    rcases PyDict.mem_set hp with he | hm
    · simp [he]
    · exact h1 p hm
  · intro p hp
    rcases PyDict.mem_set hp with he | hm
    · simp [he]
    · exact h2 p hm
  · exact PyDict.keys_nodup_set h3
  · exact PyDict.keys_nodup_set h4

theorem selfKeyed_remove {c : CacheTuple} (o : CacheObj) (h : SelfKeyed c) :
    SelfKeyed (cache_remove o c) := by
  obtain ⟨h1, h2, h3, h4⟩ := h
  unfold cache_remove
  cases hp : PyDict.pop o.oid c.idT with
  | none => exact ⟨by simp, by simp, by simp [PyDict.keys], by simp [PyDict.keys]⟩
  | some idT1 =>
    cases hq : PyDict.pop o.okey c.keyT with
    | none => exact ⟨by simp, by simp, by simp [PyDict.keys], by simp [PyDict.keys]⟩
    | some keyT1 =>
      have hs1 := PyDict.pop_sublist hp
      have hs2 := PyDict.pop_sublist hq
      refine ⟨?_, ?_, ?_, ?_⟩
      · intro p hpm
        exact h1 p (hs1.subset hpm)
      · intro p hpm
        exact h2 p (hs2.subset hpm)
      · exact ((hs1.map Prod.fst).nodup h3 : _)
      · exact ((hs2.map Prod.fst).nodup h4 : _)

theorem cacheGet_selfKeyed_id {c : CacheTuple} {i : Nat} {o : CacheObj}
    (h : SelfKeyed c) (hg : cacheGet (.byId i) c = some o) : o.oid = i := by
  exact h.1 (i, o) (PyDict.get?_mem hg)

theorem cacheGet_selfKeyed_key {c : CacheTuple} {k : String} {o : CacheObj}
    (h : SelfKeyed c) (hg : cacheGet (.byKey k) c = some o) : o.okey = k := by
  exact h.2.1 (k, o) (PyDict.get?_mem hg)

theorem cacheGet_remove_self {c : CacheTuple} {ref : CacheRef} {o : CacheObj}
    (h : SelfKeyed c) (hg : cacheGet ref c = some o) :
    cacheGet ref (cache_remove o c) = none := by
  obtain ⟨h1, h2, h3, h4⟩ := h
  unfold cache_remove
  cases hp : PyDict.pop o.oid c.idT with
  | none =>
    cases ref <;> simp [cacheGet, PyDict.get?]
  | some idT1 =>
    cases hq : PyDict.pop o.okey c.keyT with
    | none => cases ref <;> simp [cacheGet, PyDict.get?]
    | some keyT1 =>
      cases ref with
      | byId i =>
        have ho : o.oid = i := h1 (i, o) (PyDict.get?_mem hg)
        subst ho
        exact PyDict.get?_pop_nodup h3 hp
      | byKey k =>
        have ho : o.okey = k := h2 (k, o) (PyDict.get?_mem hg)
        subst ho
        exact PyDict.get?_pop_nodup h4 hq

theorem find?_map_nodup {κ : Type} [DecidableEq κ] (f : CacheObj → κ)
    {db : List CacheObj} {o : CacheObj} {i : κ} (hnd : (db.map f).Nodup)
    (hm : o ∈ db) (hf : f o = i) : db.find? (fun x => f x == i) = some o := by
  induction db with
  | nil => cases hm
  | cons x rest ih =>
    simp only [List.map_cons, List.nodup_cons] at hnd
    rcases List.mem_cons.mp hm with h1 | h1
    · subst h1
      simp [List.find?, hf]
    · have hx : f x ≠ i := by
        intro he
        exact hnd.1 (he ▸ hf ▸ List.mem_map_of_mem f h1)
      simp only [List.find?]
      rw [show (f x == i) = false by simp [hx]]
      exact ih hnd.2 h1

theorem oid_le_foldr {db : List CacheObj} {o : CacheObj} (h : o ∈ db) :
    o.oid ≤ db.foldr (fun x m => max x.oid m) 0 := by
  induction db with
  | nil => cases h
  | cons x rest ih =>
    rcases List.mem_cons.mp h with h1 | h1
    · subst h1
      simp [List.foldr]
    · simp only [List.foldr]
      exact le_trans (ih h1) (le_max_right _ _)

theorem freshId_not_mem {db : List CacheObj} {o : CacheObj} (h : o ∈ db) :
    o.oid ≠ freshId db := by
  have := oid_le_foldr h
  unfold freshId
  omega

theorem get_or_create_nodup (db : List CacheObj) (k : String)
    (hid : (db.map CacheObj.oid).Nodup) (hkey : (db.map CacheObj.okey).Nodup) :
    ((get_or_create db k).1.map CacheObj.oid).Nodup ∧
    ((get_or_create db k).1.map CacheObj.okey).Nodup := by
  unfold get_or_create
  cases hf : db.find? (fun o => o.okey == k) with
  | some o => exact ⟨hid, hkey⟩
  | none =>
    simp only [List.map_append, List.map_cons, List.map_nil]
    constructor
    · rw [List.nodup_append]
      refine ⟨hid, List.nodup_singleton _, ?_⟩
      intro x hx
      simp only [List.mem_singleton]
      obtain ⟨o, ho, he⟩ := List.mem_map.mp hx
      intro hc
      exact freshId_not_mem ho (he.trans hc)
    · rw [List.nodup_append]
      refine ⟨hkey, List.nodup_singleton _, ?_⟩
      intro x hx
      simp only [List.mem_singleton]
      obtain ⟨o, ho, he⟩ := List.mem_map.mp hx
      intro hc
      have := List.find?_eq_none.mp hf o ho
      simp only [beq_iff_eq] at this
      exact this (he ▸ hc)

theorem lookup_st_equiv {c : CacheTuple} (db : List CacheObj) (ref : CacheRef)
    (hook : List CacheObj → List CacheObj × Option CacheObj × Bool)
    (hsk : SelfKeyed c)
    (hhit : ∀ obj, cacheGet ref c = some obj → obj ∈ db → hook db = (db, some obj, false)) :
    (cache_lookup_st [] hook 2 db c ref).1 = (hook db).1 ∧
    (cache_lookup_st [] hook 2 db c ref).2.2 = (hook db).2 ∧
    SelfKeyed (cache_lookup_st [] hook 2 db c ref).2.1 := by
  have hmiss : ∀ (c1 : CacheTuple), SelfKeyed c1 →
      (match hook db with
        | (db1, some obj, n) => (db1, cache_insert obj { c1 with misses := c1.misses + 1 }, some obj, n)
        | (db1, none, n) => (db1, { c1 with misses := c1.misses + 1 }, none, n)).1 = (hook db).1 ∧
      (match hook db with
        | (db1, some obj, n) => (db1, cache_insert obj { c1 with misses := c1.misses + 1 }, some obj, n)
        | (db1, none, n) => (db1, { c1 with misses := c1.misses + 1 }, none, n)).2.2 = (hook db).2 ∧
      SelfKeyed (match hook db with
        | (db1, some obj, n) => (db1, cache_insert obj { c1 with misses := c1.misses + 1 }, some obj, n)
        | (db1, none, n) => (db1, { c1 with misses := c1.misses + 1 }, none, n)).2.1 := by
    intro c1 hsk1
    rcases hh : hook db with ⟨db1, ho, n⟩
    cases ho with
    | none =>
      refine ⟨rfl, rfl, ?_⟩
      exact ⟨hsk1.1, hsk1.2.1, hsk1.2.2.1, hsk1.2.2.2⟩
    | some o =>
      refine ⟨rfl, rfl, ?_⟩
      exact selfKeyed_insert o ⟨hsk1.1, hsk1.2.1, hsk1.2.2.1, hsk1.2.2.2⟩
  cases hg : cacheGet ref c with
  | none =>
    rw [cache_lookup_st]
    simp only [hg]
    exact hmiss c hsk
  | some obj =>
    by_cases hdb : obj ∈ db
    · have hcond : obj ∈ db ∧ obj ∉ ([] : List CacheObj) := ⟨hdb, by simp⟩
      rw [cache_lookup_st]
      simp only [hg]
      rw [if_pos hcond]
      refine ⟨?_, ?_, ?_⟩
      · rw [hhit obj hg hdb]
      · rw [hhit obj hg hdb]
      · exact ⟨hsk.1, hsk.2.1, hsk.2.2.1, hsk.2.2.2⟩
    · have hcond : ¬(obj ∈ db ∧ obj ∉ ([] : List CacheObj)) := fun hc => hdb hc.1
      rw [cache_lookup_st]
      simp only [hg]
      rw [if_neg hcond]
      have hsk2 := selfKeyed_remove obj hsk
      have hgone := cacheGet_remove_self hsk hg
      rw [cache_lookup_st]
      simp only [hgone]
      exact hmiss (cache_remove obj c) hsk2

theorem runOp_equiv (db : List CacheObj) (c : CacheTuple) (op : SessionOp)
    (hsk : SelfKeyed c) (hid : (db.map CacheObj.oid).Nodup)
    (hkey : (db.map CacheObj.okey).Nodup) :
    (runCachedOp db c op).1.1 = (runDisabledOp db op).1 ∧
    (runCachedOp db c op).2 = (runDisabledOp db op).2 ∧
    SelfKeyed (runCachedOp db c op).1.2 ∧
    ((runCachedOp db c op).1.1.map CacheObj.oid).Nodup ∧
    ((runCachedOp db c op).1.1.map CacheObj.okey).Nodup := by
  cases op with
  | insert o =>
    exact ⟨rfl, rfl, selfKeyed_insert o hsk, hid, hkey⟩
  | remove o =>
    exact ⟨rfl, rfl, selfKeyed_remove o hsk, hid, hkey⟩
  | byId i =>
    have heq := lookup_st_equiv db (CacheRef.byId i)
      (fun d => (d, get_one d i, false)) hsk ?_
    · refine ⟨heq.1, ?_, heq.2.2, ?_, ?_⟩
      · simp only [runCachedOp, runDisabledOp]
        exact heq.2.1
      · simp only [runCachedOp]
        rw [heq.1]
        exact hid
      · simp only [runCachedOp]
        rw [heq.1]
        exact hkey
    · intro obj hg hdb
      have hoid : obj.oid = i := cacheGet_selfKeyed_id hsk hg
      have : get_one db i = some obj := find?_map_nodup CacheObj.oid hid hdb hoid
      simp [this]
  | byKey k =>
    have heq := lookup_st_equiv db (CacheRef.byKey k)
      (fun d => ((get_or_create d k).1, some (get_or_create d k).2.1, (get_or_create d k).2.2))
      hsk ?_
    · have hnd := get_or_create_nodup db k hid hkey
      refine ⟨heq.1, ?_, heq.2.2, ?_, ?_⟩
      · simp only [runCachedOp, runDisabledOp]
        exact heq.2.1
      · simp only [runCachedOp]
        rw [heq.1]
        exact hnd.1
      · simp only [runCachedOp]
        rw [heq.1]
        exact hnd.2
    · intro obj hg hdb
      have hokey : obj.okey = k := cacheGet_selfKeyed_key hsk hg
      have hfind : db.find? (fun o => o.okey == k) = some obj :=
        find?_map_nodup CacheObj.okey hkey hdb hokey
      simp [get_or_create, hfind]

theorem runs_equiv (ops : List SessionOp) :
    ∀ (db : List CacheObj) (c : CacheTuple), SelfKeyed c →
    (db.map CacheObj.oid).Nodup → (db.map CacheObj.okey).Nodup →
    (runCached ops db c).1 = (runDisabled ops db).1 ∧
    (runCached ops db c).2.2 = (runDisabled ops db).2 := by
  induction ops with
  | nil => intro db c _ _ _; exact ⟨rfl, rfl⟩
  | cons op rest ih =>
    intro db c hsk hid hkey
    obtain ⟨h1, h2, h3, h4, h5⟩ := runOp_equiv db c op hsk hid hkey
    have hr := ih (runCachedOp db c op).1.1 (runCachedOp db c op).1.2 h3 h4 h5
    simp only [runCached, runDisabled]
    constructor
    · rw [← h1]
      exact hr.1
    · rw [h2, ← h1, hr.2]

/-- C8: for every sequence of cache insert/lookup/remove operations against a
database whose ids and cache keys are unique columns, the records returned by
the cached lookups (`by_id` with its `get_one` hook, `by_cache_key` with the
create-or-fetch hook the spec describes) are exactly the records returned with
the cache disabled (every lookup forced onto the miss path), and the final
persisted database state is identical with and without the cache. -/
theorem c8_cache_transparent (ops : List SessionOp) (db0 : List CacheObj)
    (hid : (db0.map CacheObj.oid).Nodup) (hkey : (db0.map CacheObj.okey).Nodup) :
    (runCached ops db0 emptyCache).1 = (runDisabled ops db0).1 ∧
    (runCached ops db0 emptyCache).2.2 = (runDisabled ops db0).2 :=
  runs_equiv ops db0 emptyCache selfKeyed_empty hid hkey

/-- C8, witness: a concrete session (create, re-lookup, direct insert of a
foreign record, lookup by id) behaves identically with and without the
cache. -/
theorem c8_witness :
    (([] : List CacheObj).map CacheObj.oid).Nodup ∧
    (runCached [SessionOp.byKey "a", SessionOp.byKey "a", SessionOp.insert ⟨7, "q", 3⟩,
        SessionOp.byId 1] [] emptyCache).1 =
      (runDisabled [SessionOp.byKey "a", SessionOp.byKey "a", SessionOp.insert ⟨7, "q", 3⟩,
        SessionOp.byId 1] []).1 :=
  ⟨by decide,
   (c8_cache_transparent [SessionOp.byKey "a", SessionOp.byKey "a",
      SessionOp.insert ⟨7, "q", 3⟩, SessionOp.byId 1] [] (by decide) (by decide)).1⟩

/-! ## Claims C2 and C3: the asset mirror -/

namespace PyDict

variable {κ ν β : Type} [DecidableEq κ]

theorem set_eq_append_of_not_found {k : κ} {v : ν} {d : List (κ × ν)}
    (h : get? k d = none) : set k v d = d ++ [(k, v)] := by
  induction d with
  | nil => rfl
  | cons q rest ih =>
    simp only [get?] at h
    by_cases hk : q.1 = k
    · rw [if_pos hk] at h
      cases h
    · rw [if_neg hk] at h
      simp only [set, if_neg hk, List.cons_append]
      rw [ih h]

theorem get?_map_pair (f : β → κ) (g : β → ν) {S : List β} {x : β} (hx : x ∈ S)
    (huniq : ∀ y ∈ S, f y = f x → y = x) :
    get? (f x) (S.map (fun y => (f y, g y))) = some (g x) := by
  induction S with
  | nil => cases hx
  | cons y ys ih =>
    simp only [List.map_cons, get?]
    by_cases hk : f y = f x
    · rw [if_pos hk]
      rw [huniq y (by simp) hk]
    · rw [if_neg hk]
      have hx2 : x ∈ ys := by
        rcases List.mem_cons.mp hx with h1 | h1
        · exact absurd (h1 ▸ rfl) hk
        · exact h1
      exact ih hx2 (fun z hz => huniq z (by simp [hz]))

end PyDict

theorem build_dict_eq (l : List (Nat × UploadReq)) (d : List (String × Nat))
    (h : ∀ iq ∈ l, iq.2.response_url ∉ PyDict.keys d)
    (hnd : (l.map (fun iq => iq.2.response_url)).Nodup) :
    l.foldl (fun d iq => PyDict.set iq.2.response_url iq.1 d) d
      = d ++ l.map (fun iq => (iq.2.response_url, iq.1)) := by
  induction l generalizing d with
  | nil => simp
  | cons x rest ih =>
    simp only [List.foldl_cons, List.map_cons]
    have hx : PyDict.get? x.2.response_url d = none :=
      PyDict.get?_eq_none_iff.mpr (h x (by simp))
    rw [PyDict.set_eq_append_of_not_found hx]
    simp only [List.map_cons, List.nodup_cons] at hnd
    rw [ih (d ++ [(x.2.response_url, x.1)]) ?_ hnd.2]
    · simp
    · intro iq hiq
      simp only [PyDict.keys, List.map_append, List.mem_append, List.map_cons]
      rintro (hin | hin)
      · exact h iq (by simp [hiq]) hin
      · simp only [List.map_nil, List.mem_singleton] at hin
        exact hnd.1 (hin ▸ List.mem_map_of_mem (fun iq => iq.2.response_url) hiq)

theorem process_response_length (now : Nat) (dict : List (String × Nat))
    (resp : String × Nat × String) (st : List Representation) :
    (process_response now dict resp st).length = st.length := by
  unfold process_response
  cases hg : PyDict.get? resp.1 dict with
  | none => simp only [hg]
  | some i =>
    simp only [hg]
    cases hs : st[i]? with
    | none => simp only [hs]
    | some r =>
      simp only [hs]
      simp

theorem process_response_untouched (now : Nat) (dict : List (String × Nat))
    (resp : String × Nat × String) (st : List Representation) (j : Nat)
    (h : ∀ i, PyDict.get? resp.1 dict = some i → i ≠ j) :
    (process_response now dict resp st)[j]? = st[j]? := by
  unfold process_response
  cases hg : PyDict.get? resp.1 dict with
  | none => simp only [hg]
  | some i =>
    simp only [hg]
    cases hs : st[i]? with
    | none => simp only [hs]
    | some r =>
      simp only [hs]
      simp [List.getElem?_set_ne (h i hg)]

theorem process_foldl_length (now : Nat) (dict : List (String × Nat))
    (respond : String → Nat × String) (l : List UploadReq)
    (st : List Representation) :
    (l.foldl (fun s rq =>
        process_response now dict (rq.response_url, respond rq.response_url) s) st).length
      = st.length := by
  induction l generalizing st with
  | nil => rfl
  | cons x rest ih =>
    simp only [List.foldl_cons]
    rw [ih]
    exact process_response_length _ _ _ _

theorem process_foldl_untouched (now : Nat) (dict : List (String × Nat))
    (respond : String → Nat × String) (l : List UploadReq)
    (st : List Representation) (j : Nat)
    (h : ∀ rq ∈ l, ∀ i, PyDict.get? rq.response_url dict = some i → i ≠ j) :
    (l.foldl (fun s rq =>
        process_response now dict (rq.response_url, respond rq.response_url) s) st)[j]?
      = st[j]? := by
  induction l generalizing st with
  | nil => rfl
  | cons x rest ih =>
    simp only [List.foldl_cons]
    rw [ih _ (fun rq hrq => h rq (by simp [hrq]))]
    exact process_response_untouched _ _ _ _ _ (h x (by simp))

theorem process_foldl_get (now : Nat) (dict : List (String × Nat))
    (respond : String → Nat × String) (l : List UploadReq)
    (st : List Representation) (j : Nat) (q : UploadReq) (r : Representation)
    (hmem : q ∈ l)
    (hq : PyDict.get? q.response_url dict = some j)
    (hothers : ∀ p ∈ l, p ≠ q → ∀ i, PyDict.get? p.response_url dict = some i → i ≠ j)
    (hnd : l.Nodup)
    (hr : st[j]? = some r) :
    (l.foldl (fun s rq =>
        process_response now dict (rq.response_url, respond rq.response_url) s) st)[j]?
      = some (
        if (respond q.response_url).1 = 200 then set_as_mirrored now r
        else { r with
               mirrored_at := none
               mirror_exception := some ("Status code " ++
                 toString (respond q.response_url).1 ++ ": " ++ (respond q.response_url).2) }) := by
  induction l generalizing st with
  | nil => cases hmem
  | cons x rest ih =>
    simp only [List.nodup_cons] at hnd
    by_cases hxq : x = q
    · subst hxq
      simp only [List.foldl_cons]
      have hjq : ∀ rq ∈ rest, ∀ i, PyDict.get? rq.response_url dict = some i → i ≠ j := by
        intro rq hrq i hi
        have hrx : rq ≠ x := fun hc => hnd.1 (hc ▸ hrq)
        exact hothers rq (by simp [hrq]) hrx i hi
      rw [process_foldl_untouched now dict respond rest _ j hjq]
      have hjlen : j < st.length := by
        by_contra hge
        rw [List.getElem?_eq_none (by omega)] at hr
        cases hr
      unfold process_response
      simp only [hq, hr]
      rw [List.getElem?_set_self hjlen]
    · have hmem2 : q ∈ rest := by
        rcases List.mem_cons.mp hmem with h1 | h1
        · exact absurd h1.symm hxq
        · exact h1
      simp only [List.foldl_cons]
      refine ih _ hmem2 (fun p hp hpq => hothers p (by simp [hp]) hpq) hnd.2 ?_
      rw [process_response_untouched now dict _ st j ?_]
      · exact hr
      · intro i hi
        exact hothers x (by simp) hxq i hi

theorem get?_enum_pair (S : List (Nat × UploadReq)) (j : Nat) (q : UploadReq)
    (hmem : (j, q) ∈ S)
    (huniq : ∀ y ∈ S, y.2.response_url = q.response_url → y = (j, q)) :
    PyDict.get? q.response_url (S.map (fun iq => (iq.2.response_url, iq.1))) = some j := by
  induction S with
  | nil => cases hmem
  | cons y ys ih =>
    simp only [List.map_cons, PyDict.get?]
    by_cases hk : y.2.response_url = q.response_url
    · rw [if_pos hk]
      have hy := huniq y (by simp) hk
      rw [hy]
    · rw [if_neg hk]
      have hmem2 : (j, q) ∈ ys := by
        rcases List.mem_cons.mp hmem with h1 | h1
        · exact absurd (by rw [← h1]) hk
        · exact h1
      exact ih hmem2 (fun z hz he => huniq z (by simp [hz]) he)

set_option maxHeartbeats 1600000 in
theorem mirror_batch_spec (env : S3Env) (now : Nat) (respond : String → Nat × String)
    (reps : List Representation)
    (hnd : ((reps.map (fun r => buildRequest env (prepRep r))).map UploadReq.response_url).Nodup) :
    (mirror_batch env now respond reps).2 = reps.map (fun r => buildRequest env (prepRep r)) ∧
    (mirror_batch env now respond reps).1.length = reps.length ∧
    ∀ (j : Nat) (r : Representation), reps[j]? = some r →
      (mirror_batch env now respond reps).1[j]? = some (
        if (respond (buildRequest env (prepRep r)).response_url).1 = 200 then
          set_as_mirrored now (prepRep r)
        else { prepRep r with
               mirrored_at := none
               mirror_exception := some ("Status code " ++
                 toString (respond (buildRequest env (prepRep r)).response_url).1 ++ ": " ++
                 (respond (buildRequest env (prepRep r)).response_url).2) }) := by
  have hreq : (reps.map prepRep).map (buildRequest env)
      = reps.map (fun r => buildRequest env (prepRep r)) := by
    rw [List.map_map]
    rfl
  have hnd' : (((reps.map prepRep).map (buildRequest env)).map UploadReq.response_url).Nodup := by
    rw [hreq]
    exact hnd
  have hRnd : ((reps.map prepRep).map (buildRequest env)).Nodup :=
    List.Nodup.of_map _ hnd'
  have hinj : ∀ a ∈ (reps.map prepRep).map (buildRequest env),
      ∀ b ∈ (reps.map prepRep).map (buildRequest env),
      a.response_url = b.response_url → a = b :=
    fun a ha b hb he => List.inj_on_of_nodup_map hnd' ha hb he
  have hdict : ((reps.map prepRep).map (buildRequest env)).enum.foldl
        (fun d iq => PyDict.set iq.2.response_url iq.1 d) []
      = ((reps.map prepRep).map (buildRequest env)).enum.map
        (fun iq => (iq.2.response_url, iq.1)) := by
    have hu : (((reps.map prepRep).map (buildRequest env)).enum.map
        (fun iq => iq.2.response_url)).Nodup := by
      have he : ((reps.map prepRep).map (buildRequest env)).enum.map
          (fun iq : Nat × UploadReq => iq.2.response_url)
          = ((reps.map prepRep).map (buildRequest env)).map UploadReq.response_url := by
        rw [show (fun iq : Nat × UploadReq => iq.2.response_url)
            = (UploadReq.response_url ∘ Prod.snd) from rfl]
        rw [← List.map_map, List.enum_map_snd]
      rw [he]
      exact hnd'
    have := build_dict_eq ((reps.map prepRep).map (buildRequest env)).enum [] (by simp [PyDict.keys]) hu
    simpa using this
  refine ⟨hreq, ?_, ?_⟩
  · show (((reps.map prepRep).map (buildRequest env)).foldl _ (reps.map prepRep)).length
      = reps.length
    rw [process_foldl_length]
    simp
  · intro j r hrj
    have hrep1 : (reps.map prepRep)[j]? = some (prepRep r) := by
      rw [List.getElem?_map, hrj]
      rfl
    have hqj : ((reps.map prepRep).map (buildRequest env))[j]?
        = some (buildRequest env (prepRep r)) := by
      rw [List.getElem?_map, hrep1]
      rfl
    have hqmem : buildRequest env (prepRep r) ∈ (reps.map prepRep).map (buildRequest env) :=
      List.getElem?_mem hqj
    have hjlen : j < ((reps.map prepRep).map (buildRequest env)).length := by
      by_contra hge
      rw [List.getElem?_eq_none (by omega)] at hqj
      cases hqj
    have hq : PyDict.get? (buildRequest env (prepRep r)).response_url
        (((reps.map prepRep).map (buildRequest env)).enum.foldl
          (fun d iq => PyDict.set iq.2.response_url iq.1 d) []) = some j := by
      rw [hdict]
      have hmemE : (j, buildRequest env (prepRep r))
          ∈ ((reps.map prepRep).map (buildRequest env)).enum :=
        List.mem_enum_iff_getElem?.mpr hqj
      have huniq : ∀ y ∈ ((reps.map prepRep).map (buildRequest env)).enum,
          y.2.response_url = (buildRequest env (prepRep r)).response_url
          → y = (j, buildRequest env (prepRep r)) := by
        intro y hy he
        have hy2 : y.2 ∈ (reps.map prepRep).map (buildRequest env) := by
          have hm := List.mem_map_of_mem Prod.snd hy
          rw [List.enum_map_snd] at hm
          exact hm
        have hy2q : y.2 = buildRequest env (prepRep r) := hinj y.2 hy2 _ hqmem he
        have hyget : ((reps.map prepRep).map (buildRequest env))[y.1]? = some y.2 :=
          List.mem_enum_iff_getElem?.mp hy
        have hy1 : y.1 = j := by
          apply List.getElem?_inj (by
            by_contra hge
            rw [List.getElem?_eq_none (by omega)] at hyget
            cases hyget) hRnd
          rw [hyget, hqj, hy2q]
        have : y = (y.1, y.2) := rfl
        rw [this, hy1, hy2q]
      exact get?_enum_pair _ j _ hmemE huniq
    have hothers : ∀ p ∈ (reps.map prepRep).map (buildRequest env),
        p ≠ buildRequest env (prepRep r) → ∀ i,
        PyDict.get? p.response_url
          (((reps.map prepRep).map (buildRequest env)).enum.foldl
            (fun d iq => PyDict.set iq.2.response_url iq.1 d) []) = some i → i ≠ j := by
      intro p hp hpq i hi
      rw [hdict] at hi
      intro hij
      subst hij
      obtain ⟨⟨i1, q1⟩, hiq, heq⟩ := List.mem_map.mp (PyDict.get?_mem hi)
      have h1 : q1.response_url = p.response_url := ((Prod.mk.injEq _ _ _ _).mp heq).1
      have h2 : i1 = i := ((Prod.mk.injEq _ _ _ _).mp heq).2
      subst h2
      have hyget : ((reps.map prepRep).map (buildRequest env))[i1]? = some q1 :=
        List.mem_enum_iff_getElem?.mp hiq
      rw [hqj] at hyget
      injection hyget with h3
      exact hpq (hinj p hp (buildRequest env (prepRep r)) hqmem (by rw [← h1, h3]))
    exact process_foldl_get now _ respond _ (reps.map prepRep) j _ (prepRep r)
      hqmem hq hothers hRnd hrep1

/-- C3, counterexample: the claim promises that ANY 2xx upload response marks
the representation mirrored, but `process_response` tests `status_code ==
200`: a 201 response sets `mirror_exception` and clears `mirrored_at`
instead. -/
theorem c3_counterexample :
    (mirror_batch ⟨fun _ => ⟨"http", "bucket.example.com", "/c.png"⟩⟩ 5
        (fun _ => (201, "Created"))
        [⟨"http://remote/c.png", none, some "image/png", "IMG", none, none, none⟩]).1[0]?
      = some { prepRep ⟨"http://remote/c.png", none, some "image/png", "IMG", none, none, none⟩ with
               mirrored_at := none
               mirror_exception := some ("Status code " ++ toString 201 ++ ": " ++ "Created") } ∧
    ({ prepRep (⟨"http://remote/c.png", none, some "image/png", "IMG", none, none, none⟩ :
         Representation) with
       mirrored_at := none
       mirror_exception := some ("Status code " ++ toString 201 ++ ": " ++ "Created") } :
         Representation).mirrored_at = none := by
  constructor
  · have h := (mirror_batch_spec ⟨fun _ => ⟨"http", "bucket.example.com", "/c.png"⟩⟩ 5
      (fun _ => (201, "Created"))
      [⟨"http://remote/c.png", none, some "image/png", "IMG", none, none, none⟩]
      (by simp)).2.2 0
      ⟨"http://remote/c.png", none, some "image/png", "IMG", none, none, none⟩ rfl
    rw [if_neg (by decide)] at h
    exact h
  · rfl

/-- C3 (amended): in a `mirror_batch` call whose upload requests carry
pairwise distinct response URLs, every representation of the batch is
processed (none aborts the others): a representation whose upload response has
status code exactly 200 is marked mirrored (`mirrored_at` set to the upload
time, any prior `mirror_exception` cleared), and one whose response status is
any other code -- including other 2xx codes -- gets `mirror_exception` set to
a string containing the status code and the response body, with `mirrored_at`
cleared. -/
theorem c3_mirror_batch_per_item (env : S3Env) (now : Nat)
    (respond : String → Nat × String) (reps : List Representation)
    (hnd : ((reps.map (fun r => buildRequest env (prepRep r))).map
      UploadReq.response_url).Nodup) :
    (mirror_batch env now respond reps).1.length = reps.length ∧
    ∀ (j : Nat) (r : Representation), reps[j]? = some r →
      ((respond (buildRequest env (prepRep r)).response_url).1 = 200 →
        (mirror_batch env now respond reps).1[j]? = some (set_as_mirrored now (prepRep r)) ∧
        (set_as_mirrored now (prepRep r)).mirrored_at = some now ∧
        (set_as_mirrored now (prepRep r)).mirror_exception = none) ∧
      ((respond (buildRequest env (prepRep r)).response_url).1 ≠ 200 →
        (mirror_batch env now respond reps).1[j]? = some { prepRep r with
          mirrored_at := none
          mirror_exception := some ("Status code " ++
            toString (respond (buildRequest env (prepRep r)).response_url).1 ++ ": " ++
            (respond (buildRequest env (prepRep r)).response_url).2) }) := by
  obtain ⟨h2, hlen, hget⟩ := mirror_batch_spec env now respond reps hnd
  refine ⟨hlen, ?_⟩
  intro j r hrj
  constructor
  · intro h200
    have h := hget j r hrj
    rw [if_pos h200] at h
    exact ⟨h, rfl, rfl⟩
  · intro hneq
    have h := hget j r hrj
    rw [if_neg hneq] at h
    exact h

/-- C3, witness: a one-element batch answered with status 200 is marked
mirrored. -/
theorem c3_witness :
    (mirror_batch ⟨fun _ => ⟨"http", "bucket.example.com", "/c.png"⟩⟩ 3
        (fun _ => (200, ""))
        [⟨"http://remote/c.png", none, some "image/png", "IMG", none, none, none⟩]).1[0]?
      = some (set_as_mirrored 3
          (prepRep ⟨"http://remote/c.png", none, some "image/png", "IMG", none, none, none⟩)) :=
  (((c3_mirror_batch_per_item ⟨fun _ => ⟨"http", "bucket.example.com", "/c.png"⟩⟩ 3
      (fun _ => (200, ""))
      [⟨"http://remote/c.png", none, some "image/png", "IMG", none, none, none⟩]
      (by simp)).2 0
      ⟨"http://remote/c.png", none, some "image/png", "IMG", none, none, none⟩ rfl).1 rfl).1

/-- C2: for a representation already marked mirrored whose conditional fetch
answers "not modified", the mirroring run issues no upload request for it and
returns it untouched (`mirrored_at` unchanged); a fetch returning new content
triggers exactly one upload request through `mirror_batch`, and a successful
(200) upload response updates `mirrored_at` to the upload time. -/
theorem c2_change_detection (env : S3Env) (now : Nat)
    (fetch : Representation → FetchResult) (respond : String → Nat × String)
    (r : Representation) (rest : List Representation) :
    (∀ t, r.mirrored_at = some t → fetch r = .notModified →
      mirror_with_change_detection env now fetch respond (r :: rest)
        = (r :: (mirror_with_change_detection env now fetch respond rest).1,
           (mirror_with_change_detection env now fetch respond rest).2)) ∧
    (∀ c, fetch r = .newContent c →
      (mirror_batch env now respond [{ r with content := c }]).2.length = 1 ∧
      mirror_with_change_detection env now fetch respond (r :: rest)
        = ((mirror_batch env now respond [{ r with content := c }]).1
            ++ (mirror_with_change_detection env now fetch respond rest).1,
           (mirror_batch env now respond [{ r with content := c }]).2
            ++ (mirror_with_change_detection env now fetch respond rest).2) ∧
      ((respond (buildRequest env (prepRep { r with content := c })).response_url).1 = 200 →
        (mirror_batch env now respond [{ r with content := c }]).1
          = [set_as_mirrored now (prepRep { r with content := c })] ∧
        (set_as_mirrored now (prepRep { r with content := c })).mirrored_at = some now)) := by
  constructor
  · intro t ht hf
    rw [mirror_with_change_detection]
    simp only [hf, ht]
  · intro c hf
    obtain ⟨hreq, hlen, hget⟩ := mirror_batch_spec env now respond [{ r with content := c }]
      (by simp)
    have hlen1 : (mirror_batch env now respond [{ r with content := c }]).2.length = 1 := by
      rw [hreq]
      simp
    refine ⟨hlen1, ?_, ?_⟩
    · rw [mirror_with_change_detection]
      simp only [hf]
    · intro h200
      have h := hget 0 { r with content := c } rfl
      rw [if_pos h200] at h
      have hl : (mirror_batch env now respond [{ r with content := c }]).1.length = 1 := by
        rw [hlen]
        rfl
      obtain ⟨a, ha⟩ := List.length_eq_one.mp hl
      rw [ha] at h
      simp only [List.getElem?_cons_zero, Option.some.injEq] at h
      rw [ha, h]
      exact ⟨rfl, rfl⟩

/-- C2, witness: a mirrored representation whose source answers "not
modified" passes through a run untouched, with no upload request issued. -/
theorem c2_witness :
    mirror_with_change_detection ⟨fun _ => ⟨"http", "b.example.com", "/x"⟩⟩ 9
        (fun _ => FetchResult.notModified) (fun _ => (200, ""))
        [⟨"http://remote/x", some "http://b.example.com/x", some "image/png", "IMG",
          none, some 4, none⟩]
      = ([⟨"http://remote/x", some "http://b.example.com/x", some "image/png", "IMG",
          none, some 4, none⟩], []) :=
  (c2_change_detection ⟨fun _ => ⟨"http", "b.example.com", "/x"⟩⟩ 9
      (fun _ => FetchResult.notModified) (fun _ => (200, ""))
      ⟨"http://remote/x", some "http://b.example.com/x", some "image/png", "IMG",
        none, some 4, none⟩ []).1 4 rfl rfl

/-! ## Claim C5: indirect-acquisition chain following -/

/-- C5: the claim (and the spec) say chain-following terminates for every
finite chain, reaching the innermost child.  The loop of
`_extract_media_types_and_drm_scheme_from_link` reassigns `nested` to
`first_or_default(acquisition_object.child)` -- the first child of the OUTER
object -- so on the three-level chain t0 -> t1 -> t2 it oscillates on t1 and
never terminates: no amount of fuel makes `nested_follow` (and hence the whole
extraction on a link carrying this entry) produce a result.  The code
contradicts the documented intent, so this is recorded as a code bug. -/
theorem c5_chain_following_diverges :
    ∀ (env : OPDS2Env) (fuel : Nat),
      nested_follow (Acq.mk (some "t0") [Acq.mk (some "t1") [Acq.mk (some "t2") []]]) fuel
        (Acq.mk (some "t0") [Acq.mk (some "t1") [Acq.mk (some "t2") []]]) = none ∧
      extract_media_types_and_drm_scheme_from_link env fuel
        { rels := ["http://opds-spec.org/acquisition"]
          typ := some "application/epub+zip"
          href := "/e"
          properties := some ⟨none, [Acq.mk (some "t0") [Acq.mk (some "t1") [Acq.mk (some "t2") []]]]⟩
          width := none
          height := none } = none := by
  have hc1 : ∀ fuel : Nat,
      nested_follow (Acq.mk (some "t0") [Acq.mk (some "t1") [Acq.mk (some "t2") []]]) fuel
        (Acq.mk (some "t1") [Acq.mk (some "t2") []]) = none := by
    intro fuel
    induction fuel with
    | zero => rfl
    | succ n ih =>
      rw [nested_follow]
      simp only [Acq.child, Acq.typ, List.isEmpty_cons, first_or_default, List.head?]
      exact ih
  have htop : ∀ fuel : Nat,
      nested_follow (Acq.mk (some "t0") [Acq.mk (some "t1") [Acq.mk (some "t2") []]]) fuel
        (Acq.mk (some "t0") [Acq.mk (some "t1") [Acq.mk (some "t2") []]]) = none := by
    intro fuel
    cases fuel with
    | zero => rfl
    | succ n =>
      rw [nested_follow]
      simp only [Acq.child, List.isEmpty_cons, first_or_default, List.head?]
      exact hc1 n
  intro env fuel
  refine ⟨htop fuel, ?_⟩
  rw [extract_media_types_and_drm_scheme_from_link]
  simp [List.mapM.loop, htop fuel]

/-! ## Claim C4: medium derivation -/

/-- C4, counterexample: a publication with no declared type and no usable
acquisition link gets NO medium (None) -- not the claimed "book" default:
`_extract_publication_metadata` passes the link-derived medium (here None) as
`_extract_medium`'s default, so the static "Book" default is bypassed. -/
theorem c4_counterexample :
    publication_medium
      ⟨[], [], [], [], fun _ => none, fun _ => none, [], fun _ => none,
        fun _ => false, fun _ s => s, [], "rights"⟩ 1
      ⟨⟨none, none, none, none, none, none⟩, [], []⟩ = some none ∧
    (some none : Option (Option String)) ≠ some (some bookMedium) := by
  constructor
  · rfl
  · simp

/-- C4 (amended): the extracted medium is the one mapped from the
publication's explicitly declared type when that type is present and the
mapping knows it; otherwise it is the medium derived from the media type of
the first usable circulation-allowed acquisition link; and when neither
source yields a medium the extracted medium is absent (None) -- the "book"
default is the static default of `_extract_medium` only and is not used on
this path. -/
theorem c4_medium_derivation (env : OPDS2Env) (fuel : Nat) (pub : Publication)
    (d : Option String) (h : extract_medium_from_links env fuel pub.links = some d) :
    publication_medium env fuel pub = some ((declared_medium env pub).orElse (fun _ => d)) := by
  unfold publication_medium
  rw [h]
  show some (extract_medium env pub d) = some ((declared_medium env pub).orElse (fun _ => d))
  unfold extract_medium declared_medium
  cases pub.metadata.typ with
  | none => rfl
  | some t =>
    by_cases ht : t = ""
    · simp [ht, Option.orElse]
    · cases hm : env.additional_type_to_medium t with
      | none => simp [ht, hm, Option.orElse]
      | some m => simp [ht, hm, Option.orElse]

/-! ## Claim C10: recording coverage failures -/

namespace PyDict

variable {κ ν : Type} [DecidableEq κ]

theorem get?_set (k k2 : κ) (v : ν) (d : List (κ × ν)) :
    get? k (set k2 v d) = if k2 = k then some v else get? k d := by
  induction d with
  | nil => simp only [set, get?]
  | cons q rest ih =>
    by_cases hq : q.1 = k2
    · by_cases hk : k2 = k
      · simp [set, get?, hq, hk]
      · simp [set, get?, hq, hk]
    · by_cases hk : k2 = k
      · have hqk : q.1 ≠ k := by rw [← hk]; exact hq
        subst hk
        simp [set, get?, hq, hqk, ih]
      · simp [set, get?, hq, hk, ih]

theorem get?_set_self (k : κ) (v : ν) (d : List (κ × ν)) :
    get? k (set k v d) = some v := by
  rw [get?_set, if_pos rfl]

theorem set_set (k : κ) (v1 v2 : ν) (d : List (κ × ν)) :
    set k v2 (set k v1 d) = set k v2 d := by
  induction d with
  | nil => simp [set]
  | cons q rest ih =>
    by_cases hq : q.1 = k
    · simp [set, hq]
    · simp [set, hq, ih]

end PyDict

/-- The computation `_record_coverage_failure` performs on a non-null
identifier: since `identifier not in failures` compares the Identifier object
against string keys and never matches, the entry is reset to `[]` and then
appended to, leaving exactly the one new failure under the key. -/
theorem record_coverage_failure_eq (ds : String)
    (failures : List (Option String × List CoverageFailure)) (ident : PIdentifier)
    (msg : String) (tr : Bool) (s : String) (hs : ident.identifier = some s) :
    record_coverage_failure ds failures ident msg tr
      = some (PyDict.set ident.identifier [⟨ident, msg, ds, tr⟩] failures,
              ⟨ident, msg, ds, tr⟩) := by
  unfold record_coverage_failure
  rw [if_neg (by rw [hs]; simp)]
  simp only [pythonEqIdentifierStr, List.any_eq_true, Bool.false_eq_true, and_false,
    exists_false, if_false]
  rw [PyDict.get?_set_self]
  simp only [Option.getD_some, List.nil_append]
  rw [PyDict.set_set]

/-- C10: each call of `_record_coverage_failure` with an identifier whose
value string is non-null leaves exactly one CoverageFailure -- the newly
recorded one -- under that identifier's string key, replacing any previously
recorded list rather than accumulating (the membership test compares the
Identifier object against string keys and never matches, so the entry is
always reset); with a null identifier value the call raises ValueError
(modelled as `none`) and returns no modified mapping. -/
theorem c10_record_coverage_failure (ds : String)
    (failures : List (Option String × List CoverageFailure)) (ident : PIdentifier)
    (msg : String) (tr : Bool) :
    (∀ s, ident.identifier = some s →
      record_coverage_failure ds failures ident msg tr
        = some (PyDict.set ident.identifier [⟨ident, msg, ds, tr⟩] failures,
                ⟨ident, msg, ds, tr⟩) ∧
      PyDict.get? ident.identifier
          (PyDict.set ident.identifier [⟨ident, msg, ds, tr⟩] failures)
        = some [⟨ident, msg, ds, tr⟩]) ∧
    (ident.identifier = none → record_coverage_failure ds failures ident msg tr = none) := by
  constructor
  · intro s hs
    exact ⟨record_coverage_failure_eq ds failures ident msg tr s hs,
      PyDict.get?_set_self _ _ _⟩
  · intro hn
    unfold record_coverage_failure
    rw [if_pos hn]

/-- C10, witness: recording over a mapping that already holds two failures
for the same key leaves exactly the new one. -/
theorem c10_witness :
    (⟨"ISBN", some "x"⟩ : PIdentifier).identifier = some "x" ∧
    record_coverage_failure "ds"
        [(some "x", [⟨⟨"ISBN", some "x"⟩, "old1", "ds", true⟩,
                     ⟨⟨"ISBN", some "x"⟩, "old2", "ds", true⟩])]
        ⟨"ISBN", some "x"⟩ "new" true
      = some (PyDict.set (⟨"ISBN", some "x"⟩ : PIdentifier).identifier
                [⟨⟨"ISBN", some "x"⟩, "new", "ds", true⟩]
                [(some "x", [⟨⟨"ISBN", some "x"⟩, "old1", "ds", true⟩,
                             ⟨⟨"ISBN", some "x"⟩, "old2", "ds", true⟩])],
              ⟨⟨"ISBN", some "x"⟩, "new", "ds", true⟩) :=
  ⟨rfl,
   ((c10_record_coverage_failure "ds"
       [(some "x", [⟨⟨"ISBN", some "x"⟩, "old1", "ds", true⟩,
                    ⟨⟨"ISBN", some "x"⟩, "old2", "ds", true⟩])]
       ⟨"ISBN", some "x"⟩ "new" true).1 "x" rfl).1⟩

/-! ## Claim C1: partial failure isolation in extract_feed_data -/

theorem extract_pub_primary_identifier (env : OPDS2Env) (fuel : Nat) (feed : OPDS2Feed)
    (pub : Publication) (m : Metadata) (ident : PIdentifier)
    (hm : extract_publication_metadata env fuel feed pub = some m)
    (hid : env.parse_identifier pub.metadata.identifier = some ident) :
    m.primary_identifier = ⟨ident.typ, ident.identifier⟩ := by
  unfold extract_publication_metadata at hm
  simp only [bind, Option.bind_eq_some, Option.pure_def, Option.some.injEq] at hm
  obtain ⟨d, hd, sl, hsl, ident2, hident2, fmts, hfmts, hmeq⟩ := hm
  rw [hid] at hident2
  cases hident2
  rw [← hmeq]

theorem loop1_spec (env : OPDS2Env) (fuel : Nat) (root : OPDS2Feed) :
    ∀ (pubs : List Publication) (acc : List (Option String × Metadata)),
    (∀ p ∈ pubs, (extract_publication_metadata env fuel root p).isSome = true) →
    ∃ md, (pubs.foldlM
        (fun (acc : List (Option String × Metadata)) pub => do
          match env.parse_identifier pub.metadata.identifier with
          | none => pure acc
          | some ident =>
            if is_identifier_allowed env ident then
              match extract_publication_metadata env fuel root pub with
              | some m => pure (PyDict.set m.primary_identifier.identifier m acc)
              | none => throw FeedErr.extractionFailed
            else pure acc) acc : Except FeedErr (List (Option String × Metadata))) = .ok md ∧
      (∀ k, PyDict.get? k acc ≠ none → PyDict.get? k md ≠ none) ∧
      (∀ p ∈ pubs, ∀ ident, env.parse_identifier p.metadata.identifier = some ident →
        is_identifier_allowed env ident = true → PyDict.get? ident.identifier md ≠ none) := by
  intro pubs
  induction pubs with
  | nil =>
    intro acc _
    refine ⟨acc, rfl, fun k h => h, ?_⟩
    intro p hp
    cases hp
  | cons p ps ih =>
    intro acc h1
    rw [List.foldlM_cons]
    cases hpid : env.parse_identifier p.metadata.identifier with
    | none =>
      obtain ⟨md, hmd, hpers, hsucc⟩ := ih acc (fun q hq => h1 q (by simp [hq]))
      refine ⟨md, ?_, hpers, ?_⟩
      · simp only [hpid, bind, Except.bind, pure, Except.pure]
        exact hmd
      · intro q hq ident hident hall
        rcases List.mem_cons.mp hq with hq1 | hq1
        · subst hq1
          rw [hpid] at hident
          cases hident
        · exact hsucc q hq1 ident hident hall
    | some ident =>
      by_cases hall : is_identifier_allowed env ident
      · have hex := h1 p (by simp)
        cases hm : extract_publication_metadata env fuel root p with
        | none => rw [hm] at hex; simp at hex
        | some m =>
          obtain ⟨md, hmd, hpers, hsucc⟩ :=
            ih (PyDict.set m.primary_identifier.identifier m acc)
              (fun q hq => h1 q (by simp [hq]))
          refine ⟨md, ?_, ?_, ?_⟩
          · simp only [hpid, hall, hm, eq_self_iff_true, if_true, bind, Except.bind,
              pure, Except.pure]
            exact hmd
          · intro k hk
            apply hpers
            rw [PyDict.get?_set]
            intro hc
            split at hc
            · cases hc
            · exact hk hc
          · intro q hq ident2 hident2 hall2
            rcases List.mem_cons.mp hq with hq1 | hq1
            · subst hq1
              rw [hpid] at hident2
              cases hident2
              apply hpers
              have hpi := extract_pub_primary_identifier env fuel root _ m ident hm hpid
              rw [hpi]
              rw [PyDict.get?_set_self]
              simp
            · exact hsucc q hq1 ident2 hident2 hall2
      · obtain ⟨md, hmd, hpers, hsucc⟩ := ih acc (fun q hq => h1 q (by simp [hq]))
        refine ⟨md, ?_, hpers, ?_⟩
        · simp only [hpid, if_neg hall, bind, Except.bind, pure, Except.pure]
          exact hmd
        · intro q hq ident2 hident2 hall2
          rcases List.mem_cons.mp hq with hq1 | hq1
          · subst hq1
            rw [hpid] at hident2
            cases hident2
            exact absurd hall2 hall
          · exact hsucc q hq1 ident2 hident2 hall2

theorem loop2_spec (env : OPDS2Env) (ds : String) :
    ∀ (errs : List ParseErr) (acc : List (Option String × List CoverageFailure)),
    (∀ e ∈ errs, ∀ p, e.publication = some p →
      ∀ ident, env.parse_identifier p.metadata.identifier = some ident →
      ident.identifier ≠ none) →
    (∀ k l, PyDict.get? k acc = some l → ∃ cf, l = [cf]) →
    ∃ fl, (errs.foldlM
        (fun (acc : List (Option String × List CoverageFailure)) err => do
          match err.publication with
          | some pub =>
            match env.parse_identifier pub.metadata.identifier with
            | none => pure acc
            | some ident =>
              if is_identifier_allowed env ident then
                match record_coverage_failure ds acc ident err.message true with
                | some r => pure r.1
                | none => throw FeedErr.valueError
              else pure acc
          | none => pure acc) acc :
        Except FeedErr (List (Option String × List CoverageFailure))) = .ok fl ∧
      (∀ k, PyDict.get? k acc ≠ none → PyDict.get? k fl ≠ none) ∧
      (∀ e ∈ errs, ∀ p, e.publication = some p →
        ∀ ident, env.parse_identifier p.metadata.identifier = some ident →
        is_identifier_allowed env ident = true → PyDict.get? ident.identifier fl ≠ none) ∧
      (∀ k l, PyDict.get? k fl = some l → ∃ cf, l = [cf]) := by
  intro errs
  induction errs with
  | nil =>
    intro acc _ hsing
    refine ⟨acc, rfl, fun k h => h, ?_, hsing⟩
    intro e he
    cases he
  | cons e es ih =>
    intro acc h2 hsing
    rw [List.foldlM_cons]
    cases hep : e.publication with
    | none =>
      obtain ⟨fl, hfl, hpers, hfail, hsing2⟩ :=
        ih acc (fun q hq => h2 q (by simp [hq])) hsing
      refine ⟨fl, ?_, hpers, ?_, hsing2⟩
      · simp only [hep, bind, Except.bind, pure, Except.pure]
        exact hfl
      · intro q hq p hp ident hident hall
        rcases List.mem_cons.mp hq with hq1 | hq1
        · subst hq1
          rw [hep] at hp
          cases hp
        · exact hfail q hq1 p hp ident hident hall
    | some pub =>
      cases hpid : env.parse_identifier pub.metadata.identifier with
      | none =>
        obtain ⟨fl, hfl, hpers, hfail, hsing2⟩ :=
          ih acc (fun q hq => h2 q (by simp [hq])) hsing
        refine ⟨fl, ?_, hpers, ?_, hsing2⟩
        · simp only [hep, hpid, bind, Except.bind, pure, Except.pure]
          exact hfl
        · intro q hq p hp ident hident hall
          rcases List.mem_cons.mp hq with hq1 | hq1
          · subst hq1
            rw [hep] at hp
            cases hp
            rw [hpid] at hident
            cases hident
          · exact hfail q hq1 p hp ident hident hall
      | some ident =>
        have hne : ident.identifier ≠ none :=
          h2 e (by simp) pub hep ident hpid
        obtain ⟨s, hs⟩ : ∃ s, ident.identifier = some s := by
          cases hi : ident.identifier with
          | none => exact absurd hi hne
          | some s => exact ⟨s, rfl⟩
        have hrec := record_coverage_failure_eq ds acc ident e.message true s hs
        by_cases hall : is_identifier_allowed env ident
        · have hsing1 : ∀ k l, PyDict.get? k
              (PyDict.set ident.identifier [⟨ident, e.message, ds, true⟩] acc) = some l →
              ∃ cf, l = [cf] := by
            intro k l hkl
            rw [PyDict.get?_set] at hkl
            split at hkl
            · cases hkl
              exact ⟨_, rfl⟩
            · exact hsing k l hkl
          obtain ⟨fl, hfl, hpers, hfail, hsing2⟩ :=
            ih (PyDict.set ident.identifier [⟨ident, e.message, ds, true⟩] acc)
              (fun q hq => h2 q (by simp [hq])) hsing1
          refine ⟨fl, ?_, ?_, ?_, hsing2⟩
          · simp only [hep, hpid, hall, eq_self_iff_true, if_true, hrec, bind,
              Except.bind, pure, Except.pure]
            exact hfl
          · intro k hk
            apply hpers
            rw [PyDict.get?_set]
            intro hc
            split at hc
            · cases hc
            · exact hk hc
          · intro q hq p hp ident2 hident2 hall2
            rcases List.mem_cons.mp hq with hq1 | hq1
            · subst hq1
              rw [hep] at hp
              cases hp
              rw [hpid] at hident2
              cases hident2
              apply hpers
              rw [PyDict.get?_set_self]
              simp
            · exact hfail q hq1 p hp ident2 hident2 hall2
        · obtain ⟨fl, hfl, hpers, hfail, hsing2⟩ :=
            ih acc (fun q hq => h2 q (by simp [hq])) hsing
          refine ⟨fl, ?_, hpers, ?_, hsing2⟩
          · simp only [hep, hpid, if_neg hall, bind, Except.bind, pure, Except.pure]
            exact hfl
          · intro q hq p hp ident2 hident2 hall2
            rcases List.mem_cons.mp hq with hq1 | hq1
            · subst hq1
              rw [hep] at hp
              cases hp
              rw [hpid] at hident2
              cases hident2
              exact absurd hall2 hall
            · exact hfail q hq1 p hp ident2 hident2 hall2

/-- C1: for every parser result in which each publication of the parsed feed
extracts successfully and every parser error attached to a publication names
an identifier with a non-null value, `extract_feed_data` does not abort
(raises no exception): every publication of the feed with a recognized,
allowed identifier appears in the returned metadata dictionary under its
identifier value, every error attached to such a publication has a
CoverageFailure recorded in the failures mapping under its identifier value
(exactly one per key), and both are returned from the one call. -/
theorem c1_partial_failure_isolation (env : OPDS2Env) (fuel : Nat) (ds : String)
    (root : OPDS2Feed) (errs : List ParseErr)
    (h1 : ∀ p ∈ get_publications root,
      (extract_publication_metadata env fuel root p).isSome = true)
    (h2 : ∀ e ∈ errs, ∀ p, e.publication = some p →
      ∀ ident, env.parse_identifier p.metadata.identifier = some ident →
      ident.identifier ≠ none) :
    (∀ err, extract_feed_data env fuel ds ⟨root, errs⟩ ≠ .error err) ∧
    (∀ md fl, extract_feed_data env fuel ds ⟨root, errs⟩ = .ok (md, fl) →
      (∀ p ∈ get_publications root, ∀ ident,
        env.parse_identifier p.metadata.identifier = some ident →
        is_identifier_allowed env ident = true →
        PyDict.get? ident.identifier md ≠ none) ∧
      (∀ e ∈ errs, ∀ p, e.publication = some p → ∀ ident,
        env.parse_identifier p.metadata.identifier = some ident →
        is_identifier_allowed env ident = true →
        PyDict.get? ident.identifier fl ≠ none) ∧
      (∀ k l, PyDict.get? k fl = some l → ∃ cf, l = [cf])) := by
  obtain ⟨md0, hmd0, hpers0, hsucc0⟩ := loop1_spec env fuel root (get_publications root) [] h1
  obtain ⟨fl0, hfl0, hpers1, hfail0, hsing0⟩ := loop2_spec env ds errs [] h2
    (by intro k l hkl; simp [PyDict.get?] at hkl)
  have hres : extract_feed_data env fuel ds ⟨root, errs⟩ = .ok (md0, fl0) := by
    unfold extract_feed_data
    simp only []
    rw [hmd0]
    simp only [bind, Except.bind]
    rw [hfl0]
    rfl
  constructor
  · intro err
    rw [hres]
    simp
  · intro md fl heq
    rw [hres] at heq
    injection heq with hpair
    injection hpair with hmd hfl
    subst hmd
    subst hfl
    exact ⟨hsucc0, hfail0, hsing0⟩

/-- C1, witness: a feed of three publications where the second one's
extraction raised a parser-reported error (so the parsed feed holds the other
two and one error is attached to the second): the single `extract_feed_data`
call raises neither exception. -/
theorem c1_witness :
    extract_feed_data envC1 1 "ds" ⟨rootC1, errsC1⟩ ≠ Except.error FeedErr.extractionFailed ∧
    extract_feed_data envC1 1 "ds" ⟨rootC1, errsC1⟩ ≠ Except.error FeedErr.valueError := by
  have h2 : ∀ e ∈ errsC1, ∀ p, e.publication = some p →
      ∀ ident, envC1.parse_identifier p.metadata.identifier = some ident →
      ident.identifier ≠ none := by
    intro e he p hp ident hid
    simp only [errsC1, List.mem_singleton] at he
    subst he
    injection hp with hp2
    subst hp2
    injection hid with hid2
    subst hid2
    simp
  have h := c1_partial_failure_isolation envC1 1 "ds" rootC1 errsC1 (by decide) h2
  exact ⟨h.1 _, h.1 _⟩

/-! ## Claim C7: link consolidation -/

theorem attach_thumbnail_maps (t : LinkData) :
    ∀ (l r : List LinkData), attach_thumbnail t l = some r →
      r.map LinkData.rel = l.map LinkData.rel ∧ r.map stripThumb = l.map stripThumb := by
  intro l
  induction l with
  | nil => intro r h; simp [attach_thumbnail] at h
  | cons x xs ih =>
    intro r h
    simp only [attach_thumbnail] at h
    split at h
    · cases h
      simp only [List.map_cons]
      constructor
      · rfl
      · rfl
    · cases hx : attach_thumbnail t xs with
      | none => rw [hx] at h; simp at h
      | some ys =>
        rw [hx] at h
        simp only [Option.map] at h
        cases h
        obtain ⟨h1, h2⟩ := ih ys hx
        simp [List.map_cons, h1, h2]

theorem filter_strip_congr :
    ∀ (r l : List LinkData), r.map LinkData.rel = l.map LinkData.rel →
      r.map stripThumb = l.map stripThumb →
      (r.filter (fun x => !(x.rel == some relThumbnail))).map stripThumb
        = (l.filter (fun x => !(x.rel == some relThumbnail))).map stripThumb := by
  intro r
  induction r with
  | nil =>
    intro l h1 _
    cases l with
    | nil => rfl
    | cons y ys => simp at h1
  | cons x xs ih =>
    intro l h1 h2
    cases l with
    | nil => simp at h1
    | cons y ys =>
      simp only [List.map_cons, List.cons.injEq] at h1 h2
      simp only [List.filter]
      rw [h1.1]
      cases hrel : !(y.rel == some relThumbnail) with
      | false => exact ih ys h1.2 h2.2
      | true =>
        simp only [List.map_cons]
        rw [h2.1]
        rw [ih ys h1.2 h2.2]

theorem consolidate_no_thumb (links : List LinkData) :
    ∀ x ∈ consolidate_links links, x.rel ≠ some relThumbnail := by
  induction links using consolidate_links.induct with
  | case1 => simp [consolidate_links]
  | case2 l rest hrel rest1 hmatch ih =>
    rw [consolidate_links, if_pos hrel]
    split
    · next r1 heq =>
        rw [hmatch] at heq
        cases heq
        exact ih
    · next heq =>
        rw [hmatch] at heq
        cases heq
  | case3 l rest hrel hmatch ih =>
    rw [consolidate_links, if_pos hrel]
    split
    · next r1 heq =>
        rw [hmatch] at heq
        cases heq
    · next heq =>
        exact ih
  | case4 l rest hrel ih =>
    rw [consolidate_links, if_neg hrel]
    intro x hx
    rcases List.mem_cons.mp hx with h1 | h1
    · exact h1 ▸ hrel
    · exact ih x h1

theorem consolidate_base (links : List LinkData) :
    (consolidate_links links).map stripThumb
      = (links.filter (fun x => !(x.rel == some relThumbnail))).map stripThumb := by
  induction links using consolidate_links.induct with
  | case1 => simp [consolidate_links]
  | case2 l rest hrel rest1 hmatch ih =>
    rw [consolidate_links, if_pos hrel]
    have hbt : (l.rel == some relThumbnail) = true := by
      rw [hrel]
      simp
    split
    · next r1 heq =>
        rw [hmatch] at heq
        cases heq
        rw [ih]
        obtain ⟨h1, h2⟩ := attach_thumbnail_maps l rest rest1 hmatch
        rw [filter_strip_congr rest1 rest h1 h2]
        simp only [List.filter, hbt, Bool.not_true]
    · next heq =>
        rw [hmatch] at heq
        cases heq
  | case3 l rest hrel hmatch ih =>
    rw [consolidate_links, if_pos hrel]
    have hbt : (l.rel == some relThumbnail) = true := by
      rw [hrel]
      simp
    split
    · next r1 heq =>
        rw [hmatch] at heq
        cases heq
    · next heq =>
        rw [ih]
        simp only [List.filter, hbt, Bool.not_true]
  | case4 l rest hrel ih =>
    rw [consolidate_links, if_neg hrel]
    simp only [List.filter]
    have hb : (l.rel == some relThumbnail) = false := by
      cases hbe : l.rel == some relThumbnail with
      | false => rfl
      | true => exact absurd (eq_of_beq hbe) hrel
    rw [hb]
    simp only [Bool.not_false, List.map_cons]
    rw [ih]

/-- C7: consolidation, modelled from the spec (the implementation is not in
the source snapshot): no thumbnail-tagged link survives to the output; the
non-thumbnail links keep their input order and their payloads (only the
thumbnail back-reference of paired images changes); `[thumbnail, image,
thumbnail, image]` consolidates to `[image(with thumbnail=t1), image(with
thumbnail=t2)]`; a lone `[thumbnail]` with no image to pair with is dropped
silently, giving `[]`. -/
theorem c7_consolidate_links :
    (∀ (links : List LinkData), ∀ x ∈ consolidate_links links,
      x.rel ≠ some relThumbnail) ∧
    (∀ links : List LinkData,
      (consolidate_links links).map stripThumb
        = (links.filter (fun x => !(x.rel == some relThumbnail))).map stripThumb) ∧
    consolidate_links
      [LinkData.mk (some relThumbnail) (some "t1") none none none none,
       LinkData.mk (some relImage) (some "i1") none none none none,
       LinkData.mk (some relThumbnail) (some "t2") none none none none,
       LinkData.mk (some relImage) (some "i2") none none none none]
      = [LinkData.mk (some relImage) (some "i1") none none none
           (some (LinkData.mk (some relThumbnail) (some "t1") none none none none)),
         LinkData.mk (some relImage) (some "i2") none none none
           (some (LinkData.mk (some relThumbnail) (some "t2") none none none none))] ∧
    consolidate_links [LinkData.mk (some relThumbnail) (some "t") none none none none]
      = [] := by
  refine ⟨consolidate_no_thumb, consolidate_base, ?_, ?_⟩
  · rw [consolidate_links]
    simp [attach_thumbnail, relImage, relThumbnail, LinkData.rel, LinkData.thumbnail,
      LinkData.href, LinkData.media_type, LinkData.rights_uri, LinkData.content]
    rw [consolidate_links]
    simp [attach_thumbnail, relImage, relThumbnail, LinkData.rel, LinkData.thumbnail,
      LinkData.href, LinkData.media_type, LinkData.rights_uri, LinkData.content]
    rw [consolidate_links]
    simp [attach_thumbnail, relImage, relThumbnail, LinkData.rel, LinkData.thumbnail,
      LinkData.href, LinkData.media_type, LinkData.rights_uri, LinkData.content]
    rw [consolidate_links]
    simp [attach_thumbnail, relImage, relThumbnail, LinkData.rel, LinkData.thumbnail,
      LinkData.href, LinkData.media_type, LinkData.rights_uri, LinkData.content]
    rw [consolidate_links]
  · rw [consolidate_links]
    simp [attach_thumbnail, relImage, relThumbnail, LinkData.rel]
    rw [consolidate_links]

/-- C7, witness: the no-thumbnail-in-output clause at the four-link example:
the second output link is not thumbnail-tagged. -/
theorem c7_witness :
    (LinkData.mk (some relImage) (some "i2") none none none
       (some (LinkData.mk (some relThumbnail) (some "t2") none none none none))).rel
      ≠ some relThumbnail := by
  apply c7_consolidate_links.1
    [LinkData.mk (some relThumbnail) (some "t1") none none none none,
     LinkData.mk (some relImage) (some "i1") none none none none,
     LinkData.mk (some relThumbnail) (some "t2") none none none none,
     LinkData.mk (some relImage) (some "i2") none none none none]
  rw [c7_consolidate_links.2.2.1]
  simp

/-! ## Claim C6: cover and thumbnail selection -/

theorem sizeLe_trans : ∀ a b c : ALink, sizeLe a b → sizeLe b c → sizeLe a c := by
  intro a b c
  simp only [sizeLe, Bool.or_eq_true, Bool.and_eq_true, decide_eq_true_eq, beq_iff_eq]
  omega

theorem sizeLe_total : ∀ a b : ALink, sizeLe a b || sizeLe b a := by
  intro a b
  simp only [sizeLe, Bool.or_eq_true, Bool.and_eq_true, decide_eq_true_eq, beq_iff_eq]
  omega

/-- C6, counterexample: two images declared in the order a, b with identical
(width, height) keys: Python's stable ascending sort keeps them in declared
order and `reversed(...)` then REVERSES the tie, so the cover is built from b
(the LAST declared of the tied largest images) and the thumbnail from a --
the claim's "ties broken by their declared order" would make a the cover. -/
theorem c6_counterexample :
    extract_image_links
      ⟨[], [], [], [], fun _ => none, fun _ => none, [], fun _ => none,
        fun _ => false, fun _ s => s, [], "rights"⟩
      ⟨⟨none, none, none, none, none, none⟩, [],
        [⟨[], none, "a", none, some 10, some 10⟩, ⟨[], none, "b", none, some 10, some 10⟩]⟩
      none
      = [LinkData.mk (some relImage) (some "b") none (some "rights") none none,
         LinkData.mk (some relThumbnail) (some "a") none (some "rights") none none] ∧
    ("b" : String) ≠ "a" := by
  refine ⟨?_, by decide⟩
  have hs : python_sorted_by_size
      [⟨[], none, "a", none, some 10, some 10⟩, ⟨[], none, "b", none, some 10, some 10⟩]
      = [⟨[], none, "a", none, some 10, some 10⟩, ⟨[], none, "b", none, some 10, some 10⟩] :=
    List.mergeSort_of_sorted (by decide)
  unfold extract_image_links
  rw [show (⟨⟨none, none, none, none, none, none⟩, [],
        [⟨[], none, "a", none, some 10, some 10⟩, ⟨[], none, "b", none, some 10, some 10⟩]⟩ :
      Publication).images
    = [⟨[], none, "a", none, some 10, some 10⟩, ⟨[], none, "b", none, some 10, some 10⟩] from rfl]
  rw [hs]
  rfl

/-- C6 (amended): for every publication with a non-empty image list, link
extraction appends at most two image links; the images are ordered by
descending (width, height) with ties broken by the REVERSE of their declared
order in the feed (the source reverses a stable ascending sort); the largest
under this order becomes the cover (image relation as the default) and the
second-largest, when it exists, becomes the thumbnail (thumbnail relation as
the default). -/
theorem c6_image_links (env : OPDS2Env) (pub : Publication) (fsu : Option String)
    (h : pub.images ≠ []) :
    ((python_sorted_by_size pub.images).reverse).Perm pub.images ∧
    ((python_sorted_by_size pub.images).reverse).Pairwise (fun a b => sizeLe b a = true) ∧
    (∀ (pre mid post : List ALink) (a b : ALink),
      pub.images = pre ++ [a] ++ mid ++ [b] ++ post → sizeKey a = sizeKey b →
      [b, a].Sublist ((python_sorted_by_size pub.images).reverse)) ∧
    (extract_image_links env pub fsu).length = min 2 pub.images.length ∧
    extract_image_links env pub fsu
      = (match ((python_sorted_by_size pub.images).reverse).head? with
         | some L => [extract_link env L fsu (some relImage)]
         | none => []) ++
        (match ((python_sorted_by_size pub.images).reverse)[1]? with
         | some L => [extract_link env L fsu (some relThumbnail)]
         | none => []) := by
  have hperm : ((python_sorted_by_size pub.images).reverse).Perm pub.images :=
    (List.reverse_perm _).trans (List.mergeSort_perm _ _)
  have hlen : ((python_sorted_by_size pub.images).reverse).length = pub.images.length := by
    rw [List.length_reverse]
    exact (List.mergeSort_perm pub.images sizeLe).length_eq
  have hsorted : ((python_sorted_by_size pub.images).reverse).Pairwise
      (fun a b => sizeLe b a = true) := by
    rw [List.pairwise_reverse]
    exact List.sorted_mergeSort sizeLe_trans sizeLe_total pub.images
  have hnotempty : pub.images.isEmpty = false := by
    cases hi : pub.images with
    | nil => exact absurd hi h
    | cons x xs => rfl
  have hbody : extract_image_links env pub fsu
      = (match ((python_sorted_by_size pub.images).reverse).head? with
         | some L => [extract_link env L fsu (some relImage)]
         | none => []) ++
        (match ((python_sorted_by_size pub.images).reverse)[1]? with
         | some L => [extract_link env L fsu (some relThumbnail)]
         | none => []) := by
    unfold extract_image_links
    rw [hnotempty]
    rfl
  refine ⟨hperm, hsorted, ?_, ?_, hbody⟩
  · intro pre mid post a b hsplit hkey
    have hab : [a, b].Sublist pub.images := by
      rw [hsplit]
      have h1 : [a].Sublist ((pre ++ [a]) ++ mid) :=
        (List.sublist_append_right pre [a]).trans (List.sublist_append_left (pre ++ [a]) mid)
      have h2 : ([a] ++ [b]).Sublist (((pre ++ [a]) ++ mid) ++ [b]) :=
        List.Sublist.append h1 (List.Sublist.refl [b])
      exact h2.trans (List.sublist_append_left _ post)
    have hle : sizeLe a b = true := by
      simp [sizeLe, hkey]
    have hsub : [a, b].Sublist (python_sorted_by_size pub.images) :=
      List.pair_sublist_mergeSort sizeLe_trans sizeLe_total hle hab
    have := hsub.reverse
    simpa using this
  · rw [hbody]
    cases hs : (python_sorted_by_size pub.images).reverse with
    | nil =>
      rw [hs] at hlen
      simp only [List.length_nil] at hlen
      exact absurd (List.length_eq_zero.mp hlen.symm) h
    | cons x t =>
      cases t with
      | nil =>
        rw [hs] at hlen
        simp only [List.length_cons, List.length_nil] at hlen
        simp [← hlen]
      | cons y t2 =>
        rw [hs] at hlen
        simp only [List.length_cons] at hlen
        simp only [List.head?, List.getElem?_cons_succ, List.getElem?_cons_zero]
        rw [show min 2 pub.images.length = 2 by omega]
        rfl

/-- C6, witness: the amended characterization at a two-image publication with
distinct sizes: the larger image becomes the cover. -/
theorem c6_witness :
    ([⟨[], none, "s", none, some 1, some 1⟩, ⟨[], none, "l", none, some 9, some 9⟩] :
        List ALink) ≠ [] ∧
    (extract_image_links
      ⟨[], [], [], [], fun _ => none, fun _ => none, [], fun _ => none,
        fun _ => false, fun _ s => s, [], "rights"⟩
      ⟨⟨none, none, none, none, none, none⟩, [],
        [⟨[], none, "s", none, some 1, some 1⟩, ⟨[], none, "l", none, some 9, some 9⟩]⟩
      none).length
      = min 2 ([⟨[], none, "s", none, some 1, some 1⟩,
          ⟨[], none, "l", none, some 9, some 9⟩] : List ALink).length :=
  ⟨List.cons_ne_nil _ _,
   (c6_image_links
     ⟨[], [], [], [], fun _ => none, fun _ => none, [], fun _ => none,
       fun _ => false, fun _ s => s, [], "rights"⟩
     ⟨⟨none, none, none, none, none, none⟩, [],
       [⟨[], none, "s", none, some 1, some 1⟩, ⟨[], none, "l", none, some 9, some 9⟩]⟩
     none (List.cons_ne_nil _ _)).2.2.2.1⟩

/-- C4, witness: the amended derivation at a publication with no links and no
declared type. -/
theorem c4_witness :
    extract_medium_from_links
      ⟨[], [], [], [], fun _ => none, fun _ => none, [], fun _ => none,
        fun _ => false, fun _ s => s, [], "rights"⟩ 1
      (Publication.links ⟨⟨none, none, none, none, none, none⟩, [], []⟩) = some none ∧
    publication_medium
      ⟨[], [], [], [], fun _ => none, fun _ => none, [], fun _ => none,
        fun _ => false, fun _ s => s, [], "rights"⟩ 1
      ⟨⟨none, none, none, none, none, none⟩, [], []⟩
      = some ((declared_medium
          ⟨[], [], [], [], fun _ => none, fun _ => none, [], fun _ => none,
            fun _ => false, fun _ s => s, [], "rights"⟩
          ⟨⟨none, none, none, none, none, none⟩, [], []⟩).orElse (fun _ => none)) :=
  ⟨rfl,
   c4_medium_derivation
     ⟨[], [], [], [], fun _ => none, fun _ => none, [], fun _ => none,
       fun _ => false, fun _ s => s, [], "rights"⟩ 1
     ⟨⟨none, none, none, none, none, none⟩, [], []⟩ none rfl⟩

end Circ
